import Mathlib

/-!
Verification of the scene-layout, semantic-mutation, relationship and
visibility logic of `image_generation/render_sc_images_drop.py`.

The Python functions are shallowly embedded as follows.

* Scene objects (the dictionaries built at lines 748-756 and 935-943 of the
  source) become the structure `Obj`.  Float data (coordinates, rotations,
  table values, random draws) is modelled by exact rationals `ℚ`; the only
  real-number computation in the source, `math.sqrt`, is modelled by
  `Real.sqrt` inside the propositions that mirror the source's comparisons.
* Randomness (`random.choice`, `random.uniform`, `random.randint`) is
  modelled by explicit draw streams / parameters that are threaded through
  the computations exactly as the source consumes them.
* Calls into Blender (`utils.add_object`, rendering, pixel projection,
  visibility rendering) are external collaborators; they are modelled as
  oracle parameters (`pix` for `utils.get_camera_coords`, `vis` for the
  rendered-image part of `check_visibility`).
-/

namespace RenderSC

/-- A scene-object record: the dictionary appended at lines 748-756
(`shape`, `size`, `material`, `3d_coords`, `rotation`, `pixel_coords`,
`color`).  `pixel_coords` is `none` before a render pass has assigned it
(the `add` branch stores `None` at line 941). -/
structure Obj where
  shape : String
  size : String
  material : String
  coords : ℚ × ℚ × ℚ
  rotation : ℚ
  pixel : Option (ℚ × ℚ × ℚ)
  color : String
deriving DecidableEq

/-- A default object record, used only to state theorems about list heads and
last elements without partiality. -/
def dummyObj : Obj :=
  { shape := "cube", size := "small", material := "rubber",
    coords := (0, 0, 0), rotation := 0, pixel := none, color := "gray" }

instance : Inhabited Obj := ⟨dummyObj⟩

/-!
## `check_visibility` (lines 1006-1029)

The function renders a shadeless image, builds `color_count`, a `Counter`
keyed by the distinct RGBA 4-tuples occurring among the pixels, and then

* returns `False` when `len(color_count) != len(blender_objects) + 1`;
* returns `False` when any entry of the counter is below
  `min_pixels_per_object`;
* returns `True` otherwise.

The rendered image is external input, so we model it as the list of its
pixel colors (one value per pixel, an arbitrary type with decidable
equality standing for the RGBA 4-tuples).  The distinct keys of the
`Counter` are `pixels.dedup`, the count of a key `c` is `pixels.count c`,
and iterating `most_common()` visits every key.
-/

/-- `check_visibility(blender_objects, min_pixels_per_object)` as a function
of the rendered pixel list and the object count. -/
def check_visibility {α : Type} [DecidableEq α]
    (pixels : List α) (numObjects minPixels : ℕ) : Bool :=
  if pixels.dedup.length ≠ numObjects + 1 then false
  else pixels.dedup.all fun c => decide (minPixels ≤ pixels.count c)

/-!
## Directions and the geometric constraints

The scene setup (lines 454-460) stores six direction vectors.  The four
horizontal ones are generated from two vectors: `front` is stored as the
negation of `behind` and `right` as the negation of `left`.  The placement
code asserts `direction_vec[2] == 0` (lines 706 and 826), so only the x
and y components matter for the margin checks; the stored values are
Blender floats, modelled as rationals.
-/

/-- The generators of the horizontal direction vectors recorded by the scene
setup: `scene_struct['directions']['behind'] = plane_behind` and
`['left'] = plane_left` (lines 455 and 457); `front` and `right` are their
negations (lines 456 and 458). z components are zero by the assertions. -/
structure Directions where
  behindX : ℚ
  behindY : ℚ
  leftX : ℚ
  leftY : ℚ

/-- The four horizontal direction vectors visited by the loop
`for direction_name in ['left', 'right', 'front', 'behind']`
(lines 704 and 824), in that order. -/
def Directions.horiz (d : Directions) : List (ℚ × ℚ) :=
  [(d.leftX, d.leftY), (-d.leftX, -d.leftY),
   (-d.behindX, -d.behindY), (d.behindX, d.behindY)]

/-- The distance test for one existing position `(ox, oy)` with stored radius
`orr`: lines 699-701 compute `dx, dy = x - xx, y - yy`,
`dist = math.sqrt(dx * dx + dy * dy)` and reject the candidate when
`dist - r - rr < min_dist`.  `distOK` states that the candidate is *not*
rejected. The stored radius `orr` may be irrational (a cube radius divided by
`sqrt 2`), hence lives in `ℝ`. -/
def distOK (minDist : ℚ) (x y r ox oy : ℚ) (orr : ℝ) : Prop :=
  ¬ (Real.sqrt (((x - ox : ℚ) : ℝ) * ((x - ox : ℚ) : ℝ) +
      ((y - oy : ℚ) : ℝ) * ((y - oy : ℚ) : ℝ)) - (r : ℚ) - orr < (minDist : ℚ))

/-- The margin test for one existing position: lines 704-712 compute
`margin = dx * direction_vec[0] + dy * direction_vec[1]` for each of the four
horizontal directions and reject when `0 < margin < args.margin`.
`marginOK` states that no direction rejects. -/
def marginOK (margin : ℚ) (d : Directions) (x y ox oy : ℚ) : Prop :=
  ∀ v ∈ d.horiz,
    ¬ (0 < (x - ox) * v.1 + (y - oy) * v.2 ∧
       (x - ox) * v.1 + (y - oy) * v.2 < margin)

/-- The combined acceptance test of a candidate `(x, y)` with raw radius `r`
against all existing positions: the loop bodies at lines 696-717 and the
helper `check_dist_margin` at lines 812-836.  The source exits the loop
early on the first violation, but the boolean it computes
(`dists_good and margins_good`) is exactly this conjunction over all
existing positions. -/
def checkDistMargin (minDist margin : ℚ) (d : Directions)
    (x y r : ℚ) (others : List (ℚ × ℚ × ℝ)) : Prop :=
  ∀ q ∈ others, distOK minDist x y r q.1 q.2.1 q.2.2 ∧ marginOK margin d x y q.1 q.2.1

/-- The source compares floating-point values; the embedded test compares
exact reals, which is not algorithmically decidable, so the conditionals of
the placement loops use classical decidability.  (Proofs about concrete runs
discharge the conditions with `if_pos` / `if_neg`.) -/
noncomputable instance (minDist margin : ℚ) (d : Directions) (x y r : ℚ)
    (others : List (ℚ × ℚ × ℝ)) :
    Decidable (checkDistMargin minDist margin d x y r others) :=
  Classical.propDecidable _

/-- The numeric arguments of the placement code: `args.min_dist`,
`args.margin` and `args.max_retries`. -/
structure PlaceArgs where
  minDist : ℚ
  margin : ℚ
  maxRetries : ℕ

/-!
## `add_random_objects` (lines 652-768)

One placed object, as far as the geometry is concerned: its sampled
center, the raw radius `r` drawn from the size table (line 678) and
whether the shape drawn afterwards (line 721 or 724-726) is the cube.
The source divides `r` by `sqrt(2)` for cubes (lines 730-731) *after*
the placement loop has already run with the raw `r`, and then appends
the adjusted `(x, y, r)` to `positions` (line 740).
-/

/-- Geometric data of one object placed by `add_random_objects`. -/
structure Placed where
  x : ℚ
  y : ℚ
  size : ℚ
  isCube : Bool
deriving DecidableEq

/-- The cube radius adjustment `r /= math.sqrt(2)` (lines 730-731, 895-896
and 926-927): applied exactly when the chosen shape is the cube. -/
noncomputable def cubeAdjust (isCube : Bool) (r : ℚ) : ℝ :=
  if isCube then (r : ℚ) / Real.sqrt 2 else (r : ℚ)

/-- The effective radius stored in `positions` (line 740): the raw size-table
value, divided by `sqrt 2` when the chosen shape is the cube (line 731). -/
noncomputable def Placed.effR (p : Placed) : ℝ :=
  cubeAdjust p.isCube p.size

/-- The `(x, y, r)` triple appended to `positions` at line 740. -/
noncomputable def Placed.position (p : Placed) : ℚ × ℚ × ℝ :=
  (p.x, p.y, p.effR)

/-- The random draws consumed by `add_random_objects`, as three sequential
streams: `sizes k` is the k-th value drawn by
`size_name, r = random.choice(size_mapping)` (line 678), `poss k` the k-th
`(random.uniform(-3, 3), random.uniform(-3, 3))` pair (lines 692-693), and
`cubes k` tells whether the k-th shape draw (line 721 or 724-726) is the
cube. -/
structure BaseRand where
  sizes : ℕ → ℚ
  cubes : ℕ → Bool
  poss : ℕ → ℚ × ℚ

/-- The placement loop for a single object (lines 684-717): it samples up to
`tries` candidate positions (the source samples while `num_tries`, checked
*before* sampling, is at most `args.max_retries`), returning the first
candidate passing `checkDistMargin` together with the advanced stream
counter, or `none` (triggering a whole-scene restart) when the budget is
exhausted.  The result also returns the position-stream counter reached. -/
noncomputable def placeLoop (A : PlaceArgs) (d : Directions) (R : BaseRand)
    (r : ℚ) (others : List (ℚ × ℚ × ℝ)) : ℕ → ℕ → Option (ℚ × ℚ) × ℕ
  | 0, k => (none, k)
  | tries + 1, k =>
      let c := R.poss k
      if checkDistMargin A.minDist A.margin d c.1 c.2 r others
      then (some c, k + 1)
      else placeLoop A d R r others tries (k + 1)

/-- The `for i in range(num_objects)` loop of `add_random_objects`
(lines 676-756), restricted to the data relevant to the geometry: it draws a
size, runs the placement loop, then draws the shape and records the
(possibly cube-adjusted) position.  Returns `none` when a placement budget
was exhausted (the source then deletes everything and restarts the scene),
together with the stream counters reached in either case. -/
noncomputable def placeObjs (A : PlaceArgs) (d : Directions) (R : BaseRand) :
    ℕ → ℕ → ℕ → ℕ → List (ℚ × ℚ × ℝ) → List Placed →
    Option (List Placed) × ℕ × ℕ × ℕ
  | 0, sk, pk, ck, _, acc => (some acc, sk, pk, ck)
  | n + 1, sk, pk, ck, others, acc =>
      let r := R.sizes sk
      match placeLoop A d R r others A.maxRetries pk with
      | (none, pk') => (none, sk + 1, pk', ck)
      | (some c, pk') =>
          let cube := R.cubes ck
          placeObjs A d R n (sk + 1) pk' (ck + 1)
            (others ++ [(c.1, c.2, cubeAdjust cube r)]) (acc ++ [⟨c.1, c.2, r, cube⟩])

/-- `add_random_objects` (lines 652-768).  One iteration places all objects
(`placeObjs`) and checks visibility (line 759, via the external renderer,
modelled by the oracle `vis`); on a placement failure (line 691) or a
visibility failure (line 766) the source calls itself recursively with no
bound on the recursion depth.  The model makes that recursion explicit with
a `fuel` counter: a result `some objs` means the source returns `objs`
within `fuel` scene-level attempts, and `addRandomObjects fuel = none` for
every `fuel` means the source never returns. -/
noncomputable def addRandomObjects (A : PlaceArgs) (d : Directions)
    (R : BaseRand) (vis : List Placed → Bool) (numObjects : ℕ) :
    ℕ → ℕ → ℕ → ℕ → Option (List Placed)
  | 0, _, _, _ => none
  | fuel + 1, sk, pk, ck =>
      match placeObjs A d R numObjects sk pk ck [] [] with
      | (none, sk', pk', ck') => addRandomObjects A d R vis numObjects fuel sk' pk' ck'
      | (some objs, sk', pk', ck') =>
          if vis objs then some objs
          else addRandomObjects A d R vis numObjects fuel sk' pk' ck'

/-!
## `apply_change` (lines 771-976), value semantics

The property tables loaded from `properties.json` (lines 777-785), as far
as the geometry uses them: the scalar attached to a size name
(`size_mapping`) and whether a shape name maps to the blender model
`'Cube'` (the lookup `obj_name = [k for k, v in object_mapping ...][0]`
followed by `obj_name == 'Cube'`).
-/

/-- Property-table data consumed by `apply_change`. -/
structure Props where
  sizeVal : String → ℚ
  isCube : String → Bool

/-- The `(x, y, r)` position that the `add` branch computes for an existing
object (lines 890-899): the planar coordinates from `3d_coords` and the
size-table value of its size name, divided by `sqrt 2` for cubes
(lines 895-896). -/
noncomputable def objPosition (P : Props) (o : Obj) : ℚ × ℚ × ℝ :=
  (o.coords.1, o.coords.2.1, cubeAdjust (P.isCube o.shape) (P.sizeVal o.size))

/-- The change types dispatched at lines 840-956. -/
inductive ChangeType
  | color
  | material
  | shape
  | drop
  | add
  | switch
  | random
  | same
deriving DecidableEq

/-- The random draws consumed by one call of `apply_change`:
`objectIdx` is the `random.randint(0, curr_num_objects - 1)` draw of the
`color`/`material`/`drop` branches; `newColor` (resp. `newMaterial`) is the
color (resp. material) on which the resample-until-different loop at
lines 847-850 (resp. 861-864) stops; `newSizeName` the size name drawn at
line 884; `poss` the stream of `(random.uniform(-3, 3), random.uniform(-3, 3))`
candidates of the `add` retry loop (lines 908-909); `newShape`, `addColor`,
`addMaterial`, `newTheta` the shape/color/material/rotation draws at
lines 916-933. -/
structure ChangeRand where
  objectIdx : ℕ
  newColor : String
  newMaterial : String
  newSizeName : String
  poss : ℕ → ℚ × ℚ
  newShape : String
  addColor : String
  addMaterial : String
  newTheta : ℚ

/-- The retry loop of the `add` branch (lines 901-913): `num_tries` is
incremented and compared with `args.max_retries` *before* each sample, so at
most `max_retries` candidates are drawn; the branch returns
`(None, None, False)` on exhaustion (line 907). -/
noncomputable def addLoop (A : PlaceArgs) (d : Directions) (poss : ℕ → ℚ × ℚ)
    (newR : ℚ) (others : List (ℚ × ℚ × ℝ)) : ℕ → ℕ → Option (ℚ × ℚ)
  | 0, _ => none
  | tries + 1, k =>
      let c := poss k
      if checkDistMargin A.minDist A.margin d c.1 c.2 newR others
      then some c
      else addLoop A d poss newR others tries (k + 1)

/-- The object record appended by the `add` branch (lines 935-943): note the
z coordinate `-1` and the `None` pixel coordinates. -/
def addedObj (ρ : ChangeRand) (c : ℚ × ℚ) : Obj :=
  { shape := ρ.newShape, size := ρ.newSizeName, material := ρ.addMaterial,
    coords := (c.1, c.2, -1), rotation := ρ.newTheta, pixel := none,
    color := ρ.addColor }

/-- The branch dispatch of `apply_change` (lines 838-956), producing the
`new_objects` list.  Value semantics: `copy.deepcopy` is the identity on
values, so a copy of `obj` is `obj` itself; the in-place aliasing behaviour
is verified separately on the heap model below.  The `shape`, `switch` and
`random` branches are `pass`, so they leave `new_objects` as the empty list
initialised at line 839.  Only the `add` branch can fail (line 907). -/
noncomputable def mutateStep (A : PlaceArgs) (d : Directions) (P : Props)
    (ct : ChangeType) (defaults : List Obj) (ρ : ChangeRand) :
    Option (List Obj) :=
  match ct with
  | .color =>
      some (defaults.enum.map fun p =>
        if p.1 = ρ.objectIdx then { p.2 with color := ρ.newColor } else p.2)
  | .material =>
      some (defaults.enum.map fun p =>
        if p.1 = ρ.objectIdx then { p.2 with material := ρ.newMaterial } else p.2)
  | .shape => some []
  | .drop => some (defaults.eraseIdx ρ.objectIdx)
  | .add =>
      let others := defaults.map (objPosition P)
      match addLoop A d ρ.poss (P.sizeVal ρ.newSizeName) others A.maxRetries 0 with
      | none => none
      | some c => some (defaults ++ [addedObj ρ c])
  | .switch => some []
  | .random => some []
  | .same => some defaults

/-- The effect of the re-render loop at lines 961-965 on one object record:
its `pixel_coords` field is overwritten with the camera coordinates returned
by `utils.get_camera_coords` (the oracle `pix`). -/
def withPixel (pix : Obj → ℚ × ℚ × ℚ) (o : Obj) : Obj :=
  { o with pixel := some (pix o) }

/-- `apply_change` (lines 771-976).  After the branch dispatch, every object
of `new_objects` is re-instantiated in Blender and its `pixel_coords` field
overwritten with fresh camera coordinates (lines 958-965, modelled by the
oracle `pix`); then `check_visibility` runs on the re-rendered scene
(line 968, modelled by the oracle `vis`).  `none` stands for the failure
return `(None, None, False)` (lines 907 and 974). -/
noncomputable def apply_change (A : PlaceArgs) (d : Directions) (P : Props)
    (ct : ChangeType) (defaults : List Obj) (ρ : ChangeRand)
    (pix : Obj → ℚ × ℚ × ℚ) (vis : List Obj → Bool) : Option (List Obj) :=
  match mutateStep A d P ct defaults ρ with
  | none => none
  | some objs =>
      let rendered := objs.map (withPixel pix)
      if vis rendered then some rendered else none

/-- The semantic fields of an object record: everything except
`pixel_coords`. -/
def coreOf (o : Obj) : String × String × String × String × ℚ × (ℚ × ℚ × ℚ) :=
  (o.shape, o.size, o.material, o.color, o.rotation, o.coords)

/-!
## `compute_all_relationships` (lines 979-1003)
-/

/-- Componentwise difference of two 3d coordinate triples:
`diff = [coords2[k] - coords1[k] for k in [0, 1, 2]]` (line 998). -/
def vsub (a b : ℚ × ℚ × ℚ) : ℚ × ℚ × ℚ :=
  (a.1 - b.1, a.2.1 - b.2.1, a.2.2 - b.2.2)

/-- `dot = sum(diff[k] * direction_vec[k] for k in [0, 1, 2])` (line 999). -/
def vdot (a b : ℚ × ℚ × ℚ) : ℚ :=
  a.1 * b.1 + a.2.1 * b.2.1 + a.2.2 * b.2.2

/-- Componentwise negation (`tuple(-plane_behind)` and friends). -/
def vneg (a : ℚ × ℚ × ℚ) : ℚ × ℚ × ℚ :=
  (-a.1, -a.2.1, -a.2.2)

/-- The six named direction vectors stored at lines 454-460, in insertion
order: `behind`, `front = -behind`, `left`, `right = -left`, `above`,
`below = -above`. -/
def sceneDirections (b l u : ℚ × ℚ × ℚ) : List (String × (ℚ × ℚ × ℚ)) :=
  [("behind", b), ("front", vneg b), ("left", l), ("right", vneg l),
   ("above", u), ("below", vneg u)]

/-- The related set for one scene object `o1` and one direction (the inner
loop at lines 994-1001): every index `j` whose object differs from `o1`
(the source skips `obj1 == obj2`, a structural dictionary comparison) and
whose coordinate difference has dot product strictly above `eps` with the
direction vector.  The source collects these indices in a set and sorts
them; filtering `objs.enum` produces exactly that sorted list. -/
def related (objs : List Obj) (o1 : Obj) (v : ℚ × ℚ × ℚ) (eps : ℚ) : List ℕ :=
  ((objs.enum.filter fun p =>
      decide (p.2 ≠ o1) && decide (eps < vdot (vsub p.2.coords o1.coords) v)).map
    Prod.fst)

/-- `compute_all_relationships(scene_struct, eps=0.2)` (lines 979-1003): for
every stored direction except `above` and `below`, the per-object list of
related indices. -/
def compute_all_relationships (dirs : List (String × (ℚ × ℚ × ℚ)))
    (objs : List Obj) (eps : ℚ) : List (String × List (List ℕ)) :=
  (dirs.filter fun nv => !(nv.1 == "above") && !(nv.1 == "below")).map
    fun nv => (nv.1, objs.enum.map fun p => related objs p.2 nv.2 eps)

/-!
## `apply_change`, heap semantics

Claim C10 is about Python aliasing: `apply_change` receives the list
`default_objects` of (mutable) dictionaries and must not modify them — every
write must hit a `copy.deepcopy` of a base record, never the record itself.
To verify this we re-run the same branch structure on an explicit heap:
object records live at addresses, `copy.deepcopy` allocates a fresh
address, and field updates (`new_obj['color'] = ...`,
`obj['pixel_coords'] = ...`) are writes to an address.
-/

/-- A heap of object records: `mem a` is the record at address `a` and all
addresses below `nxt` are the allocated ones. -/
structure Heap where
  mem : ℕ → Obj
  nxt : ℕ

/-- Allocate a fresh cell holding `o` (models `copy.deepcopy` of a record
and dictionary literals), returning the new heap and the fresh address. -/
def Heap.alloc (h : Heap) (o : Obj) : Heap × ℕ :=
  ({ mem := fun a => if a = h.nxt then o else h.mem a, nxt := h.nxt + 1 }, h.nxt)

/-- Overwrite the record at address `a` (models an item assignment on the
dictionary stored there). -/
def Heap.write (h : Heap) (a : ℕ) (o : Obj) : Heap :=
  { h with mem := fun b => if b = a then o else h.mem b }

/-- The copy loops of the `color` (lines 843-852) and `material`
(lines 856-866) branches: each base record is deep-copied and the copy at
position `objectIdx` has one field updated (`upd`).  The argument `i` is the
`enumerate` counter. -/
def copyUpd (upd : Obj → Obj) (idx : ℕ) : Heap → List ℕ → ℕ → Heap × List ℕ
  | h, [], _ => (h, [])
  | h, a :: as, i =>
      let p := h.alloc (h.mem a)
      let h2 := if i = idx then p.1.write p.2 (upd (p.1.mem p.2)) else p.1
      let q := copyUpd upd idx h2 as (i + 1)
      (q.1, p.2 :: q.2)

/-- The copy loop of the `drop` branch (lines 872-878): position `idx` is
skipped (`continue`), every other record is deep-copied. -/
def copyDrop (idx : ℕ) : Heap → List ℕ → ℕ → Heap × List ℕ
  | h, [], _ => (h, [])
  | h, a :: as, i =>
      if i = idx then copyDrop idx h as (i + 1)
      else
        let p := h.alloc (h.mem a)
        let q := copyDrop idx p.1 as (i + 1)
        (q.1, p.2 :: q.2)

/-- The plain copy loops of the `same` branch (lines 954-956) and of the
prefix of the `add` branch (lines 890-900). -/
def copyList : Heap → List ℕ → Heap × List ℕ
  | h, [] => (h, [])
  | h, a :: as =>
      let p := h.alloc (h.mem a)
      let q := copyList p.1 as
      (q.1, p.2 :: q.2)

/-- The branch dispatch of `apply_change` on the heap, mirroring
`mutateStep` write for write.  Returns the heap after the branch and the
addresses of `new_objects` (or `none` when the `add` retry loop is
exhausted, line 907). -/
noncomputable def mutateStepHeap (A : PlaceArgs) (d : Directions) (P : Props)
    (ct : ChangeType) (h : Heap) (defaults : List ℕ) (ρ : ChangeRand) :
    Heap × Option (List ℕ) :=
  match ct with
  | .color =>
      let p := copyUpd (fun o => { o with color := ρ.newColor }) ρ.objectIdx h defaults 0
      (p.1, some p.2)
  | .material =>
      let p := copyUpd (fun o => { o with material := ρ.newMaterial }) ρ.objectIdx h defaults 0
      (p.1, some p.2)
  | .shape => (h, some [])
  | .drop =>
      let p := copyDrop ρ.objectIdx h defaults 0
      (p.1, some p.2)
  | .add =>
      let p := copyList h defaults
      let others := defaults.map fun a => objPosition P (h.mem a)
      match addLoop A d ρ.poss (P.sizeVal ρ.newSizeName) others A.maxRetries 0 with
      | none => (p.1, none)
      | some c =>
          let q := p.1.alloc (addedObj ρ c)
          (q.1, some (p.2 ++ [q.2]))
  | .switch => (h, some [])
  | .random => (h, some [])
  | .same =>
      let p := copyList h defaults
      (p.1, some p.2)

/-- The re-render loop at lines 961-965: `obj['pixel_coords'] =
new_pixel_coords` written to each record of `new_objects` in place. -/
def setPixels (pix : Obj → ℚ × ℚ × ℚ) : Heap → List ℕ → Heap
  | h, [] => h
  | h, a :: as =>
      setPixels pix (h.write a { h.mem a with pixel := some (pix (h.mem a)) }) as

/-- `apply_change` on the heap: branch dispatch, pixel-coordinate writes,
visibility check.  The final heap is returned on every path (the source
deletes only the Blender objects on failure, never the dictionaries). -/
noncomputable def applyChangeHeap (A : PlaceArgs) (d : Directions) (P : Props)
    (ct : ChangeType) (h : Heap) (defaults : List ℕ) (ρ : ChangeRand)
    (pix : Obj → ℚ × ℚ × ℚ) (vis : List Obj → Bool) : Heap × Option (List ℕ) :=
  match mutateStepHeap A d P ct h defaults ρ with
  | (h1, none) => (h1, none)
  | (h1, some addrs) =>
      let h2 := setPixels pix h1 addrs
      if vis (addrs.map h2.mem) then (h2, some addrs) else (h2, none)

/-!
## Auxiliary definitions for the statements and their concrete instances
-/

/-- The planar center distance computed at line 700:
`math.sqrt(dx * dx + dy * dy)`. -/
noncomputable def planarDist (p q : ℚ × ℚ) : ℝ :=
  Real.sqrt (((p.1 - q.1 : ℚ) : ℝ) * ((p.1 - q.1 : ℚ) : ℝ) +
    ((p.2 - q.2 : ℚ) : ℝ) * ((p.2 - q.2 : ℚ) : ℝ))

/-- The per-direction table built by `compute_all_relationships` for one
direction vector. -/
def relTable (objs : List Obj) (v : ℚ × ℚ × ℚ) (eps : ℚ) : List (List ℕ) :=
  objs.enum.map fun p => related objs p.2 v eps

/-- The checks that the placement of `b` ran against the already-stored
position of `a`: the candidate `(b.x, b.y)` with the *raw* radius `b.size`
was tested against `(a.x, a.y)` with `a`'s *effective* (cube-adjusted)
radius. -/
def pairOK (A : PlaceArgs) (d : Directions) (a b : Placed) : Prop :=
  distOK A.minDist b.x b.y b.size a.x a.y a.effR ∧
  marginOK A.margin d b.x b.y a.x a.y

/-- Every later-placed object passed the distance/margin checks against
every earlier-placed one. -/
def placedPairwise (A : PlaceArgs) (d : Directions) (l : List Placed) : Prop :=
  ∀ (i j : ℕ) (hi : i < l.length) (hj : j < l.length), i < j →
    pairOK A d (l.get ⟨i, hi⟩) (l.get ⟨j, hj⟩)

/-- The effective radius of the object inserted by the `add` branch: its
drawn size-table value, cube-adjusted (lines 926-927). -/
noncomputable def addEffR (P : Props) (ρ : ChangeRand) : ℝ :=
  cubeAdjust (P.isCube ρ.newShape) (P.sizeVal ρ.newSizeName)

/-- `add_random_objects` never returns on these inputs: every scene-level
recursion depth is insufficient. -/
def divergesOn (A : PlaceArgs) (d : Directions) (R : BaseRand)
    (vis : List Placed → Bool) (n : ℕ) : Prop :=
  ∀ fuel sk pk ck, addRandomObjects A d R vis n fuel sk pk ck = none

/-- Concrete horizontal directions: `behind = (0, 1)`, `left = (-1, 0)`. -/
def dirs0 : Directions := ⟨0, 1, -1, 0⟩

/-- Concrete placement arguments: `min_dist = 0`, `margin = 2/5`,
`max_retries = 1`. -/
def args0 : PlaceArgs := ⟨0, 2/5, 1⟩

/-- Concrete placement arguments with `max_retries = 0`. -/
def args00 : PlaceArgs := ⟨1/4, 2/5, 0⟩

/-- Concrete placement arguments used by the divergence example:
`min_dist = 1/4`, `margin = 2/5`, `max_retries = 1`. -/
def badArgs : PlaceArgs := ⟨1/4, 2/5, 1⟩

/-- A draw sequence on which every placement attempt fails: every candidate
position is `(0, 0)`, so a second object can never be placed. -/
def badRand : BaseRand := ⟨fun _ => 0, fun _ => false, fun _ => (0, 0)⟩

/-- A draw sequence whose first two candidates `(0, 0)` and `(3, 0)` are
accepted outright. -/
def goodRand : BaseRand :=
  ⟨fun _ => 0, fun _ => false, fun k => if k = 0 then (0, 0) else (3, 0)⟩

/-- Concrete property tables: every size scalar is `0`, no shape is the
cube. -/
def props0 : Props := ⟨fun _ => 0, fun _ => false⟩

/-- Concrete mutation draws; every `add` candidate is `(3, 0)`. -/
def rand0 : ChangeRand :=
  { objectIdx := 0, newColor := "red", newMaterial := "metal",
    newSizeName := "small", poss := fun _ => (3, 0), newShape := "sphere",
    addColor := "blue", addMaterial := "rubber", newTheta := 0 }

/-- Concrete mutation draws on which every `add` candidate is the origin. -/
def rand00 : ChangeRand := { rand0 with poss := fun _ => (0, 0) }

/-- A second concrete object, distinguishable from `dummyObj`. -/
def objB : Obj := { dummyObj with coords := (1, 0, 0), color := "blue" }

/-- A concrete pixel-projection oracle. -/
def pix0 : Obj → ℚ × ℚ × ℚ := fun _ => (7, 8, 9)

/-- A visibility oracle that accepts everything. -/
def visOk : List Obj → Bool := fun _ => true

/-- A visibility oracle on placed objects that accepts everything. -/
def visOkP : List Placed → Bool := fun _ => true

/-!
# Theorems

## Claim C3: `check_visibility`
-/

/-- Claim C3 as stated is false: with one object whose assigned color `0`
covers 2 pixels (threshold 2) and a background color `1` covering a single
pixel, the image has `1 + 1` distinct colors and the object's pixel count
meets the threshold, so the claimed equivalence demands `true`; the code
returns `false` because it also requires the *background* count to reach
`min_pixels_per_object` (the loop at lines 1026-1028 runs over every entry
of the counter). -/
theorem check_visibility_claim_counterexample :
    ([0, 0, 1] : List ℕ).dedup.length = 1 + 1 ∧
    2 ≤ ([0, 0, 1] : List ℕ).count 0 ∧
    check_visibility ([0, 0, 1] : List ℕ) 1 2 = false := by
  decide

/-- Claim C3, amended: `check_visibility` returns `false` whenever some
object's assigned color covers fewer than `min_pixels_per_object` pixels
(assuming the shadeless image only contains the objects' distinct assigned
colors and the background color), and it returns `true` iff the image has
exactly `object_count + 1` distinct colors and *every* distinct color of
the image — the background included — covers at least
`min_pixels_per_object` pixels. -/
theorem check_visibility_amended {α : Type} [DecidableEq α] :
    (∀ (pixels objColors : List α) (bg : α) (minPixels : ℕ),
      (objColors ++ [bg]).Nodup →
      (∀ p ∈ pixels, p ∈ objColors ∨ p = bg) →
      ∀ c ∈ objColors, pixels.count c < minPixels →
        check_visibility pixels objColors.length minPixels = false) ∧
    (∀ (pixels : List α) (n minPixels : ℕ),
      check_visibility pixels n minPixels = true ↔
        (pixels.dedup.length = n + 1 ∧
         ∀ c ∈ pixels.dedup, minPixels ≤ pixels.count c)) := by
  have hiff : ∀ (pixels : List α) (n minPixels : ℕ),
      check_visibility pixels n minPixels = true ↔
        (pixels.dedup.length = n + 1 ∧
         ∀ c ∈ pixels.dedup, minPixels ≤ pixels.count c) := by
    intro pixels n minPixels
    unfold check_visibility
    by_cases h : pixels.dedup.length = n + 1
    · simp [h, List.all_eq_true]
    · simp [h]
  refine ⟨?_, hiff⟩
  intro pixels objColors bg minPixels hnd hsub c hc hcnt
  by_contra hne
  have htrue : check_visibility pixels objColors.length minPixels = true := by
    cases hvis : check_visibility pixels objColors.length minPixels
    · exact absurd hvis hne
    · rfl
  obtain ⟨hlen, hall⟩ := (hiff pixels objColors.length minPixels).mp htrue
  by_cases hmem : c ∈ pixels.dedup
  · exact absurd (hall c hmem) (by omega)
  · -- `c` does not occur among the pixels at all, so the distinct colors fit
    -- inside the remaining `objColors.length` colors.
    have hcpix : c ∉ pixels := fun hin => hmem (List.mem_dedup.mpr hin)
    have hsubset : pixels.dedup ⊆ objColors.erase c ++ [bg] := by
      intro p hp
      have hppix : p ∈ pixels := List.mem_dedup.mp hp
      have hpc : p ≠ c := fun he => hcpix (he ▸ hppix)
      rcases hsub p hppix with hobj | hbg
      · exact List.mem_append_left _ ((List.mem_erase_of_ne hpc).mpr hobj)
      · exact List.mem_append_right _ (by simp [hbg])
    have hle : pixels.dedup.length ≤ (objColors.erase c ++ [bg]).length :=
      (List.subperm_of_subset pixels.nodup_dedup hsubset).length_le
    have herase : (objColors.erase c).length = objColors.length - 1 :=
      List.length_erase_of_mem hc
    have hpos : 1 ≤ objColors.length := List.length_pos.mpr (by
      intro he; rw [he] at hc; exact absurd hc (List.not_mem_nil c))
    rw [List.length_append, herase] at hle
    simp only [List.length_singleton] at hle
    omega

/-- Witness for the amended claim C3 at a concrete image: three objects with
colors `0`, `1`, `2`, background `3`; color `2` covers no pixel, so the
verdict is `false`; and the equivalence evaluated on a fully-visible image
returns `true`. -/
theorem check_visibility_amended_witness :
    check_visibility ([0, 0, 1, 1, 3] : List ℕ) 3 2 = false ∧
    check_visibility ([0, 0, 1, 1, 3, 3] : List ℕ) 2 2 = true := by
  constructor
  · exact (check_visibility_amended.1 [0, 0, 1, 1, 3] [0, 1, 2] 3 2
      (by decide) (by decide) 2 (by decide) (by decide))
  · exact (check_visibility_amended.2 [0, 0, 1, 1, 3, 3] 2 2).mpr (by decide)

/-!
## Claim C9: the `shape`, `switch` and `random` change types
-/

/-- Claim C9 as stated is false: `apply_change` with change type `shape` on
a non-empty base returns a *successful* result — the empty object list
(the branches at lines 867-869, 945-948 and 949-951 are `pass`, so
`new_objects` stays the empty list initialised at line 839, the render loop
renders nothing and the call returns `([], [], True)` when the empty render
passes the visibility check).  There is no "not implemented" signal of any
kind; the same happens for `switch` and `random`. -/
theorem apply_change_unimplemented_counterexample :
    apply_change args0 dirs0 props0 .shape [dummyObj] rand0 pix0 visOk = some [] ∧
    apply_change args0 dirs0 props0 .switch [dummyObj] rand0 pix0 visOk = some [] ∧
    apply_change args0 dirs0 props0 .random [dummyObj] rand0 pix0 visOk = some [] := by
  exact ⟨rfl, rfl, rfl⟩

/-- Claim C9, amended: for the change types `shape`, `switch` and `random`,
`apply_change` silently discards the base objects and proceeds with the
empty variant list; it reports success with that empty list whenever the
visibility check accepts the empty render, and failure otherwise — in no
case does it produce a "not implemented" signal (its return values are only
`(new_objects, new_blend_objects, True)` and `(None, None, False)`). -/
theorem apply_change_unimplemented_amended
    (A : PlaceArgs) (d : Directions) (P : Props) (defaults : List Obj)
    (ρ : ChangeRand) (pix : Obj → ℚ × ℚ × ℚ) (vis : List Obj → Bool)
    (ct : ChangeType) (h : ct = .shape ∨ ct = .switch ∨ ct = .random) :
    apply_change A d P ct defaults ρ pix vis =
      (if vis [] then some [] else none) := by
  rcases h with rfl | rfl | rfl <;> rfl

/-- Witness for the amended claim C9: with a rejecting visibility oracle the
`switch` change type yields the failure result on a concrete scene. -/
theorem apply_change_unimplemented_amended_witness :
    apply_change args0 dirs0 props0 .switch [dummyObj] rand0 pix0
      (fun _ => false) = none := by
  have h := apply_change_unimplemented_amended args0 dirs0 props0 [dummyObj]
    rand0 pix0 (fun _ => false) .switch (Or.inr (Or.inl rfl))
  simpa using h

/-!
## Claim C5: the `drop` change type
-/

/-- `coreOf` ignores the only field `withPixel` changes. -/
theorem coreOf_withPixel (pix : Obj → ℚ × ℚ × ℚ) (o : Obj) :
    coreOf (withPixel pix o) = coreOf o := rfl

/-- Claim C5: for a non-empty base (so that `random.randint(0,
curr_num_objects - 1)` yields an index `objectIdx < len(base)`), the `drop`
branch itself always succeeds and removes exactly the chosen object
(`new_objects = base with index objectIdx erased`, every element a copy);
when the subsequent visibility check lets the call succeed, the returned
variant has length `len(base) - 1`, equals the erased base list with
re-rendered pixel coordinates, and its semantic fields form a subsequence
of the base's in the original relative order. -/
theorem apply_change_drop_spec (A : PlaceArgs) (d : Directions) (P : Props)
    (defaults : List Obj) (ρ : ChangeRand) (pix : Obj → ℚ × ℚ × ℚ)
    (vis : List Obj → Bool) (hne : defaults ≠ [])
    (hidx : ρ.objectIdx < defaults.length) :
    mutateStep A d P .drop defaults ρ = some (defaults.eraseIdx ρ.objectIdx) ∧
    ∀ objs, apply_change A d P .drop defaults ρ pix vis = some objs →
      objs.length = defaults.length - 1 ∧
      objs = (defaults.eraseIdx ρ.objectIdx).map (withPixel pix) ∧
      List.Sublist (objs.map coreOf) (defaults.map coreOf) := by
  refine ⟨rfl, ?_⟩
  intro objs h
  have h' : (if vis ((defaults.eraseIdx ρ.objectIdx).map (withPixel pix))
      then some ((defaults.eraseIdx ρ.objectIdx).map (withPixel pix))
      else none) = some objs := h
  by_cases hv : vis ((defaults.eraseIdx ρ.objectIdx).map (withPixel pix))
  · rw [if_pos hv] at h'
    injection h' with h'
    subst h'
    refine ⟨?_, rfl, ?_⟩
    · rw [List.length_map, List.length_eraseIdx_of_lt hidx]
    · have hmm : ((defaults.eraseIdx ρ.objectIdx).map (withPixel pix)).map coreOf
          = (defaults.eraseIdx ρ.objectIdx).map coreOf := by
        rw [List.map_map]
        exact List.map_congr_left fun o _ => coreOf_withPixel pix o
      rw [hmm]
      exact List.Sublist.map coreOf (List.eraseIdx_sublist defaults ρ.objectIdx)
  · rw [if_neg hv] at h'
    exact absurd h' (by simp)

/-- Witness for claim C5 on a concrete two-object base with index 0
dropped. -/
theorem apply_change_drop_spec_witness :
    mutateStep args0 dirs0 props0 .drop [dummyObj, objB] rand0 = some [objB] ∧
    ([objB].map (withPixel pix0)).length = [dummyObj, objB].length - 1 := by
  have h := apply_change_drop_spec args0 dirs0 props0 [dummyObj, objB] rand0
    pix0 visOk (by simp) (by norm_num [rand0])
  have happ : apply_change args0 dirs0 props0 .drop [dummyObj, objB] rand0 pix0 visOk
      = some ([objB].map (withPixel pix0)) := rfl
  exact ⟨h.1, (h.2 _ happ).1⟩

/-!
## Claim C6: the `same` change type
-/

/-- Claim C6: a successful `same`-type `apply_change` returns a variant of
the same length whose i-th object agrees with the i-th base object on all
semantic fields (shape, size, material, color, rotation, 3d coordinates);
only `pixel_coords` is rewritten by the re-render loop.  In particular the
sequence (hence the multiset) of semantic-field tuples is preserved
exactly. -/
theorem apply_change_same_spec (A : PlaceArgs) (d : Directions) (P : Props)
    (defaults : List Obj) (ρ : ChangeRand) (pix : Obj → ℚ × ℚ × ℚ)
    (vis : List Obj → Bool) (objs : List Obj)
    (h : apply_change A d P .same defaults ρ pix vis = some objs) :
    objs = defaults.map (withPixel pix) ∧
    objs.length = defaults.length ∧
    objs.map coreOf = defaults.map coreOf ∧
    ∀ (i : ℕ) (hi : i < objs.length) (hi' : i < defaults.length),
      coreOf (objs.get ⟨i, hi⟩) = coreOf (defaults.get ⟨i, hi'⟩) := by
  have h' : (if vis (defaults.map (withPixel pix))
      then some (defaults.map (withPixel pix)) else none) = some objs := h
  by_cases hv : vis (defaults.map (withPixel pix))
  · rw [if_pos hv] at h'
    injection h' with h'
    subst h'
    refine ⟨rfl, List.length_map _ _, ?_, ?_⟩
    · rw [List.map_map]
      exact List.map_congr_left fun o _ => coreOf_withPixel pix o
    · intro i hi hi'
      simp [List.get_eq_getElem, List.getElem_map, coreOf_withPixel]
  · rw [if_neg hv] at h'
    exact absurd h' (by simp)

/-- Witness for claim C6 on a concrete one-object base. -/
theorem apply_change_same_spec_witness :
    ([dummyObj].map (withPixel pix0)).length = [dummyObj].length ∧
    ([dummyObj].map (withPixel pix0)).map coreOf = ([dummyObj] : List Obj).map coreOf := by
  have happ : apply_change args0 dirs0 props0 .same [dummyObj] rand0 pix0 visOk
      = some ([dummyObj].map (withPixel pix0)) := rfl
  have h := apply_change_same_spec args0 dirs0 props0 [dummyObj] rand0 pix0
    visOk _ happ
  exact ⟨h.2.1, h.2.2.1⟩

/-!
## Claim C8: the `add` change type and its retry budget
-/

/-- The `add` retry loop only ever inspects the candidate draws with indices
`k, k+1, ..., k + tries - 1`. -/
theorem addLoop_congr (A : PlaceArgs) (d : Directions)
    (poss poss' : ℕ → ℚ × ℚ) (newR : ℚ) (others : List (ℚ × ℚ × ℝ)) :
    ∀ (tries k : ℕ), (∀ j, k ≤ j → j < k + tries → poss j = poss' j) →
      addLoop A d poss newR others tries k = addLoop A d poss' newR others tries k := by
  intro tries
  induction tries with
  | zero => intro k _; rfl
  | succ t ih =>
      intro k h
      have hk : poss k = poss' k := h k le_rfl (by omega)
      simp only [addLoop, hk]
      by_cases hc : checkDistMargin A.minDist A.margin d (poss' k).1 (poss' k).2 newR others
      · rw [if_pos hc, if_pos hc]
      · rw [if_neg hc, if_neg hc]
        exact ih (k + 1) fun j h1 h2 => h j (by omega) (by omega)

/-- If every inspected candidate fails the checks, the `add` retry loop
exhausts its budget. -/
theorem addLoop_none (A : PlaceArgs) (d : Directions) (poss : ℕ → ℚ × ℚ)
    (newR : ℚ) (others : List (ℚ × ℚ × ℝ)) :
    ∀ (tries k : ℕ),
      (∀ j, k ≤ j → j < k + tries →
        ¬ checkDistMargin A.minDist A.margin d (poss j).1 (poss j).2 newR others) →
      addLoop A d poss newR others tries k = none := by
  intro tries
  induction tries with
  | zero => intro k _; rfl
  | succ t ih =>
      intro k h
      simp only [addLoop]
      rw [if_neg (h k le_rfl (by omega))]
      exact ih (k + 1) fun j h1 h2 => h j (by omega) (by omega)

/-- A candidate returned by the `add` retry loop passed the checks. -/
theorem addLoop_sound (A : PlaceArgs) (d : Directions) (poss : ℕ → ℚ × ℚ)
    (newR : ℚ) (others : List (ℚ × ℚ × ℝ)) :
    ∀ (tries k : ℕ) (c : ℚ × ℚ), addLoop A d poss newR others tries k = some c →
      checkDistMargin A.minDist A.margin d c.1 c.2 newR others := by
  intro tries
  induction tries with
  | zero => intro k c h; exact absurd h (by simp [addLoop])
  | succ t ih =>
      intro k c h
      simp only [addLoop] at h
      by_cases hc : checkDistMargin A.minDist A.margin d (poss k).1 (poss k).2 newR others
      · rw [if_pos hc] at h
        injection h with h
        exact h ▸ hc
      · rw [if_neg hc] at h
        exact ih (k + 1) c h

/-- Claim C8: the `add` branch draws at most `max_retries` candidate
positions (its outcome only depends on the first `max_retries` entries of
the candidate stream); when none of those candidates passes the
distance/margin checks against the existing objects' positions the whole
call fails with no object list; in particular with `max_retries = 0` it
always fails. -/
theorem apply_change_add_retries_spec :
    (∀ (A : PlaceArgs) (d : Directions) (poss poss' : ℕ → ℚ × ℚ) (newR : ℚ)
       (others : List (ℚ × ℚ × ℝ)),
       (∀ j < A.maxRetries, poss j = poss' j) →
       addLoop A d poss newR others A.maxRetries 0 =
         addLoop A d poss' newR others A.maxRetries 0) ∧
    (∀ (A : PlaceArgs) (d : Directions) (P : Props) (defaults : List Obj)
       (ρ : ChangeRand) (pix : Obj → ℚ × ℚ × ℚ) (vis : List Obj → Bool),
       (∀ j < A.maxRetries,
         ¬ checkDistMargin A.minDist A.margin d (ρ.poss j).1 (ρ.poss j).2
             (P.sizeVal ρ.newSizeName) (defaults.map (objPosition P))) →
       apply_change A d P .add defaults ρ pix vis = none) ∧
    (∀ (A : PlaceArgs) (d : Directions) (P : Props) (defaults : List Obj)
       (ρ : ChangeRand) (pix : Obj → ℚ × ℚ × ℚ) (vis : List Obj → Bool),
       A.maxRetries = 0 →
       apply_change A d P .add defaults ρ pix vis = none) := by
  have hfail : ∀ (A : PlaceArgs) (d : Directions) (P : Props)
      (defaults : List Obj) (ρ : ChangeRand) (pix : Obj → ℚ × ℚ × ℚ)
      (vis : List Obj → Bool),
      addLoop A d ρ.poss (P.sizeVal ρ.newSizeName)
        (defaults.map (objPosition P)) A.maxRetries 0 = none →
      apply_change A d P .add defaults ρ pix vis = none := by
    intro A d P defaults ρ pix vis hl
    simp only [apply_change, mutateStep]
    rw [hl]
  refine ⟨?_, ?_, ?_⟩
  · intro A d poss poss' newR others h
    exact addLoop_congr A d poss poss' newR others A.maxRetries 0
      fun j h1 h2 => h j (by omega)
  · intro A d P defaults ρ pix vis h
    exact hfail A d P defaults ρ pix vis
      (addLoop_none A d ρ.poss _ _ A.maxRetries 0 fun j h1 h2 => h j (by omega))
  · intro A d P defaults ρ pix vis h
    exact hfail A d P defaults ρ pix vis (by rw [h]; rfl)

/-- Witness for claim C8: with `max_retries = 0` a concrete `add` fails
outright, and with `max_retries = 1` against a base object sitting on the
only candidate position it fails after its single retry. -/
theorem apply_change_add_retries_spec_witness :
    apply_change args00 dirs0 props0 .add [dummyObj] rand0 pix0 visOk = none ∧
    apply_change badArgs dirs0 props0 .add [dummyObj] rand00 pix0 visOk = none := by
  constructor
  · exact apply_change_add_retries_spec.2.2 args00 dirs0 props0 [dummyObj]
      rand0 pix0 visOk rfl
  · refine apply_change_add_retries_spec.2.1 badArgs dirs0 props0 [dummyObj]
      rand00 pix0 visOk ?_
    intro j hj hchk
    have hm : objPosition props0 dummyObj ∈ [dummyObj].map (objPosition props0) := by
      simp
    have h1 := (hchk _ hm).1
    apply h1
    show Real.sqrt _ - _ - _ < _
    have h0 : objPosition props0 dummyObj =
        ((0 : ℚ), (0 : ℚ), ((0 : ℚ) : ℝ)) := by
      simp [objPosition, props0, dummyObj, cubeAdjust]
    rw [h0]
    norm_num [rand00, rand0, badArgs, props0, Real.sqrt_zero]

/-!
## Claim C4: `compute_all_relationships`
-/

/-- The dot product of a direction with the difference of equal coordinate
triples vanishes. -/
theorem vdot_vsub_self (a v : ℚ × ℚ × ℚ) : vdot (vsub a a) v = 0 := by
  simp [vsub, vdot]

/-- Membership in the related list computed for `o1`: exactly the indices
`j` whose object differs from `o1` as a record and has dot product above
`eps`. -/
theorem mem_related_iff (objs : List Obj) (o1 : Obj) (v : ℚ × ℚ × ℚ)
    (eps : ℚ) (j : ℕ) :
    j ∈ related objs o1 v eps ↔
      ∃ hj : j < objs.length,
        objs.get ⟨j, hj⟩ ≠ o1 ∧
        eps < vdot (vsub (objs.get ⟨j, hj⟩).coords o1.coords) v := by
  unfold related
  simp only [List.mem_map, List.mem_filter]
  constructor
  · rintro ⟨p, ⟨hpmem, hpred⟩, rfl⟩
    rw [Bool.and_eq_true, decide_eq_true_iff, decide_eq_true_iff] at hpred
    have hget : objs[p.1]? = some p.2 := by
      exact List.mk_mem_enum_iff_getElem?.mp (by simpa using hpmem)
    rw [List.getElem?_eq_some] at hget
    obtain ⟨hj, hv⟩ := hget
    exact ⟨hj, by simpa [List.get_eq_getElem, hv] using hpred⟩
  · rintro ⟨hj, hne, hdot⟩
    refine ⟨(j, objs.get ⟨j, hj⟩), ⟨?_, ?_⟩, rfl⟩
    · exact List.mk_mem_enum_iff_getElem?.mpr (by simp [List.get_eq_getElem])
    · rw [Bool.and_eq_true, decide_eq_true_iff, decide_eq_true_iff]
      exact ⟨hne, hdot⟩

/-- A related list is strictly increasing: it arises by filtering the index
side of `objs.enum`. -/
theorem related_sorted (objs : List Obj) (o1 : Obj) (v : ℚ × ℚ × ℚ)
    (eps : ℚ) : (related objs o1 v eps).Sorted (· < ·) := by
  have h1 : List.Sublist ((objs.enum.filter fun p =>
      decide (p.2 ≠ o1) && decide (eps < vdot (vsub p.2.coords o1.coords) v)).map
        Prod.fst) (objs.enum.map Prod.fst) :=
    List.Sublist.map _ (List.filter_sublist _)
  rw [List.enum_map_fst] at h1
  exact List.Pairwise.sublist h1 (List.pairwise_lt_range _)

/-- Claim C4: on the six stored directions, `compute_all_relationships`
(with the reference tolerance `eps = 0.2 = 1/5`) produces a table for
exactly the four horizontal direction names, excluding `above` and `below`;
the i-th entry of each table is the sorted list of exactly those indices
`j ≠ i` whose coordinates satisfy
`dot(position[j] - position[i], direction) > eps`; and no index occurs in
its own related list. -/
theorem compute_all_relationships_spec (objs : List Obj) (b l u : ℚ × ℚ × ℚ) :
    (compute_all_relationships (sceneDirections b l u) objs (1/5)).map Prod.fst
        = ["behind", "front", "left", "right"] ∧
    compute_all_relationships (sceneDirections b l u) objs (1/5)
        = [("behind", relTable objs b (1/5)), ("front", relTable objs (vneg b) (1/5)),
           ("left", relTable objs l (1/5)), ("right", relTable objs (vneg l) (1/5))] ∧
    (∀ (v : ℚ × ℚ × ℚ) (i : ℕ) (hi : i < objs.length),
        (relTable objs v (1/5)).getD i [] = related objs (objs.get ⟨i, hi⟩) v (1/5)) ∧
    (∀ (v : ℚ × ℚ × ℚ) (i : ℕ) (hi : i < objs.length) (j : ℕ),
        j ∈ related objs (objs.get ⟨i, hi⟩) v (1/5) ↔
          ∃ hj : j < objs.length, j ≠ i ∧
            1/5 < vdot (vsub (objs.get ⟨j, hj⟩).coords
              (objs.get ⟨i, hi⟩).coords) v) ∧
    (∀ (v : ℚ × ℚ × ℚ) (o1 : Obj), (related objs o1 v (1/5)).Sorted (· < ·)) ∧
    (∀ (v : ℚ × ℚ × ℚ) (i : ℕ) (hi : i < objs.length),
        i ∉ related objs (objs.get ⟨i, hi⟩) v (1/5)) := by
  have hmem : ∀ (v : ℚ × ℚ × ℚ) (i : ℕ) (hi : i < objs.length) (j : ℕ),
      j ∈ related objs (objs.get ⟨i, hi⟩) v (1/5) ↔
        ∃ hj : j < objs.length, j ≠ i ∧
          1/5 < vdot (vsub (objs.get ⟨j, hj⟩).coords
            (objs.get ⟨i, hi⟩).coords) v := by
    intro v i hi j
    rw [mem_related_iff]
    constructor
    · rintro ⟨hj, hne, hdot⟩
      refine ⟨hj, ?_, hdot⟩
      intro he
      exact hne (by subst he; rfl)
    · rintro ⟨hj, hne, hdot⟩
      refine ⟨hj, ?_, hdot⟩
      intro he
      rw [he] at hdot
      rw [vdot_vsub_self] at hdot
      norm_num at hdot
  refine ⟨rfl, rfl, ?_, hmem, fun v o1 => related_sorted objs o1 v (1/5), ?_⟩
  · intro v i hi
    have hlen : i < (relTable objs v (1/5)).length := by
      simpa [relTable] using hi
    rw [List.getD_eq_getElem _ _ hlen]
    simp [relTable, List.getElem_map, List.getElem_enum, List.get_eq_getElem]
  · intro v i hi hmem'
    obtain ⟨_, hne, _⟩ := (hmem v i hi i).mp hmem'
    exact hne rfl

/-- Witness for claim C4 on a concrete two-object scene: the second object
lies one unit to the `(1, 0, 0)` side of the first, so index `1` is related
to index `0` in that direction, and irreflexivity holds at index `0`. -/
theorem compute_all_relationships_spec_witness :
    1 ∈ related [dummyObj, objB] dummyObj (1, 0, 0) (1/5) ∧
    0 ∉ related [dummyObj, objB] dummyObj (1, 0, 0) (1/5) := by
  have h := compute_all_relationships_spec [dummyObj, objB] (1, 0, 0) (0, 1, 0) (0, 0, 1)
  constructor
  · exact (h.2.2.2.1 (1, 0, 0) 0 (by norm_num) 1).mpr
      ⟨by norm_num, by norm_num, by norm_num [vdot, vsub, objB, dummyObj]⟩
  · exact h.2.2.2.2.2 (1, 0, 0) 0 (by norm_num)

/-!
## Claims C1 and C2: the geometric invariants of accepted scenes

Unfolding lemmas for the loop models.
-/

/-- A successful iteration of the per-object placement loop. -/
theorem placeLoop_succ_pos {A : PlaceArgs} {d : Directions} {R : BaseRand}
    {r : ℚ} {others : List (ℚ × ℚ × ℝ)} {tries k : ℕ}
    (h : checkDistMargin A.minDist A.margin d (R.poss k).1 (R.poss k).2 r others) :
    placeLoop A d R r others (tries + 1) k = (some (R.poss k), k + 1) := by
  simp only [placeLoop]
  rw [if_pos h]

/-- A failed iteration of the per-object placement loop. -/
theorem placeLoop_succ_neg {A : PlaceArgs} {d : Directions} {R : BaseRand}
    {r : ℚ} {others : List (ℚ × ℚ × ℝ)} {tries k : ℕ}
    (h : ¬ checkDistMargin A.minDist A.margin d (R.poss k).1 (R.poss k).2 r others) :
    placeLoop A d R r others (tries + 1) k = placeLoop A d R r others tries (k + 1) := by
  simp only [placeLoop]
  rw [if_neg h]

/-- Unfolding `placeObjs` when the placement loop succeeds. -/
theorem placeObjs_succ_some {A : PlaceArgs} {d : Directions} {R : BaseRand}
    {n sk pk ck : ℕ} {others : List (ℚ × ℚ × ℝ)} {acc : List Placed}
    {c : ℚ × ℚ} {pk2 : ℕ}
    (h : placeLoop A d R (R.sizes sk) others A.maxRetries pk = (some c, pk2)) :
    placeObjs A d R (n + 1) sk pk ck others acc =
      placeObjs A d R n (sk + 1) pk2 (ck + 1)
        (others ++ [(c.1, c.2, cubeAdjust (R.cubes ck) (R.sizes sk))])
        (acc ++ [⟨c.1, c.2, R.sizes sk, R.cubes ck⟩]) := by
  simp only [placeObjs]
  rw [h]

/-- Unfolding `placeObjs` when the placement loop exhausts its budget. -/
theorem placeObjs_succ_none {A : PlaceArgs} {d : Directions} {R : BaseRand}
    {n sk pk ck : ℕ} {others : List (ℚ × ℚ × ℝ)} {acc : List Placed} {pk2 : ℕ}
    (h : placeLoop A d R (R.sizes sk) others A.maxRetries pk = (none, pk2)) :
    placeObjs A d R (n + 1) sk pk ck others acc = (none, sk + 1, pk2, ck) := by
  simp only [placeObjs]
  rw [h]

/-- A candidate accepted by the placement loop passed the checks. -/
theorem placeLoop_sound (A : PlaceArgs) (d : Directions) (R : BaseRand)
    (r : ℚ) (others : List (ℚ × ℚ × ℝ)) :
    ∀ (tries k : ℕ) (c : ℚ × ℚ) (k' : ℕ),
      placeLoop A d R r others tries k = (some c, k') →
      checkDistMargin A.minDist A.margin d c.1 c.2 r others := by
  intro tries
  induction tries with
  | zero =>
      intro k c k' h
      exact absurd h (by simp [placeLoop])
  | succ t ih =>
      intro k c k' h
      by_cases hc : checkDistMargin A.minDist A.margin d (R.poss k).1 (R.poss k).2 r others
      · rw [placeLoop_succ_pos hc] at h
        injection h with h1 h2
        injection h1 with h1
        exact h1 ▸ hc
      · rw [placeLoop_succ_neg hc] at h
        exact ih (k + 1) c k' h

/-- Appending a newly placed object to a pairwise-checked prefix keeps it
pairwise-checked, provided the new object was checked against every stored
position. -/
theorem placedPairwise_append (A : PlaceArgs) (d : Directions)
    (acc : List Placed) (p : Placed) (hacc : placedPairwise A d acc)
    (hnew : ∀ a ∈ acc, pairOK A d a p) :
    placedPairwise A d (acc ++ [p]) := by
  intro i j hi hj hij
  have hj' : j < acc.length + 1 := by
    simpa using hj
  by_cases hjl : j < acc.length
  · have hil : i < acc.length := lt_trans hij hjl
    have e1 : (acc ++ [p]).get ⟨i, hi⟩ = acc.get ⟨i, hil⟩ := by
      simp only [List.get_eq_getElem]
      rw [List.getElem_append_left]
    have e2 : (acc ++ [p]).get ⟨j, hj⟩ = acc.get ⟨j, hjl⟩ := by
      simp only [List.get_eq_getElem]
      rw [List.getElem_append_left]
    rw [e1, e2]
    exact hacc i j hil hjl hij
  · have hje : j = acc.length := by omega
    have hil : i < acc.length := by omega
    have e1 : (acc ++ [p]).get ⟨i, hi⟩ = acc.get ⟨i, hil⟩ := by
      simp only [List.get_eq_getElem]
      rw [List.getElem_append_left]
    have e2 : (acc ++ [p]).get ⟨j, hj⟩ = p := by
      subst hje
      simp [List.get_eq_getElem]
    rw [e1, e2]
    exact hnew _ (List.get_mem acc i hil)

/-- Every object list returned by the placement loop of
`add_random_objects` is pairwise-checked. -/
theorem placeObjs_sound (A : PlaceArgs) (d : Directions) (R : BaseRand) :
    ∀ (n sk pk ck : ℕ) (others : List (ℚ × ℚ × ℝ)) (acc : List Placed)
      (objs : List Placed) (sk' pk' ck' : ℕ),
      placeObjs A d R n sk pk ck others acc = (some objs, sk', pk', ck') →
      others = acc.map Placed.position →
      placedPairwise A d acc →
      placedPairwise A d objs := by
  intro n
  induction n with
  | zero =>
      intro sk pk ck others acc objs sk' pk' ck' h hoth hacc
      have h0 : placeObjs A d R 0 sk pk ck others acc = (some acc, sk, pk, ck) := rfl
      rw [h0] at h
      injection h with h1 h2
      injection h1 with h1
      exact h1 ▸ hacc
  | succ n ih =>
      intro sk pk ck others acc objs sk' pk' ck' h hoth hacc
      rcases hpl : placeLoop A d R (R.sizes sk) others A.maxRetries pk with ⟨o, pk2⟩
      cases o with
      | none =>
          rw [placeObjs_succ_none hpl] at h
          injection h with h1 h2
          exact absurd h1 (by simp)
      | some c =>
          rw [placeObjs_succ_some hpl] at h
          have hchk := placeLoop_sound A d R (R.sizes sk) others A.maxRetries pk c pk2 hpl
          refine ih (sk + 1) pk2 (ck + 1) _ _ objs sk' pk' ck' h ?_ ?_
          · rw [hoth, List.map_append]
            rfl
          · refine placedPairwise_append A d acc _ hacc ?_
            intro a ha
            have hmem : a.position ∈ others := by
              rw [hoth]
              exact List.mem_map_of_mem Placed.position ha
            exact (hchk a.position hmem : _)

/-- Unfolding `add_random_objects` when placement fails and the scene
restarts. -/
theorem addRandomObjects_succ_none {A : PlaceArgs} {d : Directions}
    {R : BaseRand} {vis : List Placed → Bool} {n f sk pk ck sk' pk' ck' : ℕ}
    (h : placeObjs A d R n sk pk ck [] [] = (none, sk', pk', ck')) :
    addRandomObjects A d R vis n (f + 1) sk pk ck =
      addRandomObjects A d R vis n f sk' pk' ck' := by
  simp only [addRandomObjects]
  rw [h]

/-- Unfolding `add_random_objects` when placement succeeds and the
visibility check decides between returning and restarting. -/
theorem addRandomObjects_succ_some {A : PlaceArgs} {d : Directions}
    {R : BaseRand} {vis : List Placed → Bool} {n f sk pk ck sk' pk' ck' : ℕ}
    {objs0 : List Placed}
    (h : placeObjs A d R n sk pk ck [] [] = (some objs0, sk', pk', ck')) :
    addRandomObjects A d R vis n (f + 1) sk pk ck =
      if vis objs0 then some objs0
      else addRandomObjects A d R vis n f sk' pk' ck' := by
  simp only [addRandomObjects]
  rw [h]

/-- Every object list returned by `add_random_objects` is
pairwise-checked. -/
theorem addRandomObjects_sound (A : PlaceArgs) (d : Directions) (R : BaseRand)
    (vis : List Placed → Bool) (n : ℕ) :
    ∀ (fuel sk pk ck : ℕ) (objs : List Placed),
      addRandomObjects A d R vis n fuel sk pk ck = some objs →
      placedPairwise A d objs := by
  intro fuel
  induction fuel with
  | zero =>
      intro sk pk ck objs h
      exact absurd h (by simp [addRandomObjects])
  | succ f ih =>
      intro sk pk ck objs h
      rcases hpo : placeObjs A d R n sk pk ck [] [] with ⟨o, sk', pk', ck'⟩
      cases o with
      | none =>
          rw [addRandomObjects_succ_none hpo] at h
          exact ih sk' pk' ck' objs h
      | some objs0 =>
          rw [addRandomObjects_succ_some hpo] at h
          by_cases hv : vis objs0
          · rw [if_pos hv] at h
            injection h with h
            subst h
            exact placeObjs_sound A d R n sk pk ck [] [] objs0 sk' pk' ck' hpo rfl
              (fun i j hi => absurd hi (by simp))
          · rw [if_neg hv] at h
            exact ih sk' pk' ck' objs h

/-- `sqrt 2` is at least `1`. -/
theorem one_le_sqrt_two : (1 : ℝ) ≤ Real.sqrt 2 := by
  nlinarith [Real.sq_sqrt (show (0 : ℝ) ≤ 2 by norm_num), Real.sqrt_nonneg 2]

/-- The cube adjustment never increases a nonnegative radius. -/
theorem cubeAdjust_le (b : Bool) (r : ℚ) (h : 0 ≤ r) :
    cubeAdjust b r ≤ ((r : ℚ) : ℝ) := by
  have hr : (0 : ℝ) ≤ ((r : ℚ) : ℝ) := by exact_mod_cast h
  cases b with
  | false => simp [cubeAdjust]
  | true =>
      show ((r : ℚ) : ℝ) / Real.sqrt 2 ≤ ((r : ℚ) : ℝ)
      exact div_le_self hr one_le_sqrt_two

/-- The planar distance is symmetric. -/
theorem planarDist_comm (p q : ℚ × ℚ) : planarDist p q = planarDist q p := by
  unfold planarDist
  congr 1
  push_cast
  ring

/-- The distance part of a passed pairwise check yields the claimed
separation of effective radii. -/
theorem pairOK_dist (A : PlaceArgs) (d : Directions) (a b : Placed)
    (hb : 0 ≤ b.size) (h : pairOK A d a b) :
    ((A.minDist : ℚ) : ℝ) + a.effR + b.effR ≤ planarDist (a.x, a.y) (b.x, b.y) := by
  have h1 := h.1
  unfold distOK at h1
  push_neg at h1
  have hb' : b.effR ≤ ((b.size : ℚ) : ℝ) := cubeAdjust_le b.isCube b.size hb
  rw [planarDist_comm]
  have heq : planarDist (b.x, b.y) (a.x, a.y) =
      Real.sqrt (((b.x - a.x : ℚ) : ℝ) * ((b.x - a.x : ℚ) : ℝ) +
        ((b.y - a.y : ℚ) : ℝ) * ((b.y - a.y : ℚ) : ℝ)) := rfl
  rw [heq]
  linarith

/-- The set of horizontal direction vectors is closed under negation:
`right = -left` and `front = -behind` by construction (lines 455-458). -/
theorem horiz_neg_mem (d : Directions) (v : ℚ × ℚ) (hv : v ∈ d.horiz) :
    ((-v.1, -v.2) : ℚ × ℚ) ∈ d.horiz := by
  simp only [Directions.horiz, List.mem_cons, List.mem_singleton,
    List.not_mem_nil, or_false] at hv ⊢
  rcases hv with rfl | rfl | rfl | rfl
  · exact Or.inr (Or.inl rfl)
  · exact Or.inl (by simp)
  · exact Or.inr (Or.inr (Or.inr (by simp)))
  · exact Or.inr (Or.inr (Or.inl rfl))

/-- A passed margin check also protects the reversed pair: flipping the sign
of the difference amounts to using the opposite direction vector, which is
also in the horizontal set. -/
theorem marginOK_flip (m : ℚ) (d : Directions) (x y ox oy : ℚ)
    (h : marginOK m d x y ox oy) (v : ℚ × ℚ) (hv : v ∈ d.horiz) :
    ¬ (0 < (ox - x) * v.1 + (oy - y) * v.2 ∧
       (ox - x) * v.1 + (oy - y) * v.2 < m) := by
  have h3 := h (-v.1, -v.2) (horiz_neg_mem d v hv)
  intro hcon
  apply h3
  have e : (x - ox) * ((-v.1, -v.2) : ℚ × ℚ).1 + (y - oy) * ((-v.1, -v.2) : ℚ × ℚ).2 =
      (ox - x) * v.1 + (oy - y) * v.2 := by
    show (x - ox) * (-v.1) + (y - oy) * (-v.2) = _
    ring
  rw [e]
  exact hcon

/-- Unfolding the `add` branch when its retry loop finds a position. -/
theorem mutateStep_add_some {A : PlaceArgs} {d : Directions} {P : Props}
    {defaults : List Obj} {ρ : ChangeRand} {c : ℚ × ℚ}
    (h : addLoop A d ρ.poss (P.sizeVal ρ.newSizeName)
        (defaults.map (objPosition P)) A.maxRetries 0 = some c) :
    mutateStep A d P .add defaults ρ = some (defaults ++ [addedObj ρ c]) := by
  simp only [mutateStep]
  rw [h]

/-- Unfolding the `add` branch when its retry loop is exhausted. -/
theorem mutateStep_add_none {A : PlaceArgs} {d : Directions} {P : Props}
    {defaults : List Obj} {ρ : ChangeRand}
    (h : addLoop A d ρ.poss (P.sizeVal ρ.newSizeName)
        (defaults.map (objPosition P)) A.maxRetries 0 = none) :
    mutateStep A d P .add defaults ρ = none := by
  simp only [mutateStep]
  rw [h]

/-- Unfolding `apply_change` once the branch outcome is known. -/
theorem apply_change_of_mutate {A : PlaceArgs} {d : Directions} {P : Props}
    {ct : ChangeType} {defaults : List Obj} {ρ : ChangeRand}
    {pix : Obj → ℚ × ℚ × ℚ} {vis : List Obj → Bool} {objs0 : List Obj}
    (h : mutateStep A d P ct defaults ρ = some objs0) :
    apply_change A d P ct defaults ρ pix vis =
      if vis (objs0.map (withPixel pix)) then some (objs0.map (withPixel pix))
      else none := by
  simp only [apply_change]
  rw [h]

/-- A successful `add`-type `apply_change` call pins down its retry-loop
candidate and its returned list. -/
theorem apply_change_add_success {A : PlaceArgs} {d : Directions} {P : Props}
    {defaults : List Obj} {ρ : ChangeRand} {pix : Obj → ℚ × ℚ × ℚ}
    {vis : List Obj → Bool} {objs : List Obj}
    (h : apply_change A d P .add defaults ρ pix vis = some objs) :
    ∃ c, addLoop A d ρ.poss (P.sizeVal ρ.newSizeName)
        (defaults.map (objPosition P)) A.maxRetries 0 = some c ∧
      objs = (defaults ++ [addedObj ρ c]).map (withPixel pix) := by
  rcases haddl : addLoop A d ρ.poss (P.sizeVal ρ.newSizeName)
      (defaults.map (objPosition P)) A.maxRetries 0 with _ | c
  · rw [apply_change] at h
    rw [mutateStep_add_none haddl] at h
    exact absurd h (by simp)
  · refine ⟨c, rfl, ?_⟩
    rw [apply_change_of_mutate (mutateStep_add_some haddl)] at h
    by_cases hv : vis ((defaults ++ [addedObj ρ c]).map (withPixel pix))
    · rw [if_pos hv] at h
      injection h with h
      exact h.symm
    · rw [if_neg hv] at h
      exact absurd h (by simp)

/-- A passed distance check bounds the planar distance from below. -/
theorem distOK_planar (m x y r ox oy : ℚ) (orr : ℝ)
    (h : distOK m x y r ox oy orr) :
    ((m : ℚ) : ℝ) + ((r : ℚ) : ℝ) + orr ≤ planarDist (x, y) (ox, oy) := by
  unfold distOK at h
  push_neg at h
  have he : planarDist (x, y) (ox, oy) =
      Real.sqrt (((x - ox : ℚ) : ℝ) * ((x - ox : ℚ) : ℝ) +
        ((y - oy : ℚ) : ℝ) * ((y - oy : ℚ) : ℝ)) := rfl
  rw [he]
  linarith

/-- Claim C1: every object list returned by `add_random_objects` keeps any
two distinct objects at planar distance at least `min_dist` plus the sum of
their effective radii (cube radii divided by `sqrt 2`), provided the size
table is nonnegative; and in a successful `add`-type `apply_change` the
inserted object keeps that same separation from every base object. -/
theorem min_dist_invariant :
    (∀ (A : PlaceArgs) (d : Directions) (R : BaseRand)
        (vis : List Placed → Bool) (n fuel sk pk ck : ℕ) (objs : List Placed),
        addRandomObjects A d R vis n fuel sk pk ck = some objs →
        (∀ o ∈ objs, 0 ≤ o.size) →
        ∀ (i j : ℕ) (hi : i < objs.length) (hj : j < objs.length), i ≠ j →
          ((A.minDist : ℚ) : ℝ) + (objs.get ⟨i, hi⟩).effR + (objs.get ⟨j, hj⟩).effR ≤
            planarDist ((objs.get ⟨i, hi⟩).x, (objs.get ⟨i, hi⟩).y)
              ((objs.get ⟨j, hj⟩).x, (objs.get ⟨j, hj⟩).y)) ∧
    (∀ (A : PlaceArgs) (d : Directions) (P : Props) (defaults : List Obj)
        (ρ : ChangeRand) (pix : Obj → ℚ × ℚ × ℚ) (vis : List Obj → Bool)
        (objs : List Obj),
        apply_change A d P .add defaults ρ pix vis = some objs →
        0 ≤ P.sizeVal ρ.newSizeName →
        ∀ o ∈ defaults,
          ((A.minDist : ℚ) : ℝ) + addEffR P ρ + (objPosition P o).2.2 ≤
            planarDist ((objs.getLastD dummyObj).coords.1,
                (objs.getLastD dummyObj).coords.2.1)
              (o.coords.1, o.coords.2.1)) := by
  constructor
  · intro A d R vis n fuel sk pk ck objs hrun hsz i j hi hj hij
    have hpw := addRandomObjects_sound A d R vis n fuel sk pk ck objs hrun
    rcases Nat.lt_or_ge i j with hlt | hge
    · exact pairOK_dist A d _ _ (hsz _ (List.get_mem objs j hj)) (hpw i j hi hj hlt)
    · have hlt : j < i := by omega
      have hd := pairOK_dist A d _ _ (hsz _ (List.get_mem objs i hi)) (hpw j i hj hi hlt)
      rw [planarDist_comm] at hd
      linarith
  · intro A d P defaults ρ pix vis objs h hsz o ho
    obtain ⟨c, haddl, hobjs⟩ := apply_change_add_success h
    have hchk := addLoop_sound A d ρ.poss (P.sizeVal ρ.newSizeName)
      (defaults.map (objPosition P)) A.maxRetries 0 c haddl
    have hq := (hchk (objPosition P o) (List.mem_map_of_mem _ ho)).1
    have hq2 : ((A.minDist : ℚ) : ℝ) + ((P.sizeVal ρ.newSizeName : ℚ) : ℝ) +
        (objPosition P o).2.2 ≤
        planarDist (c.1, c.2) (o.coords.1, o.coords.2.1) :=
      distOK_planar _ _ _ _ _ _ _ hq
    have hradd : addEffR P ρ ≤ ((P.sizeVal ρ.newSizeName : ℚ) : ℝ) :=
      cubeAdjust_le _ _ hsz
    have hlast : objs.getLastD dummyObj = withPixel pix (addedObj ρ c) := by
      rw [hobjs, List.map_append]
      simp
    rw [hlast]
    show ((A.minDist : ℚ) : ℝ) + addEffR P ρ + (objPosition P o).2.2 ≤
      planarDist (c.1, c.2) (o.coords.1, o.coords.2.1)
    linarith

/-- Claim C2: in every object list returned by `add_random_objects`, for
every ordered pair of distinct objects and each of the four horizontal
directions, the signed margin is never strictly inside `(0, margin)`; the
same holds between the inserted object and every base object (in both
orders) in a successful `add`-type `apply_change`. -/
theorem margin_invariant :
    (∀ (A : PlaceArgs) (d : Directions) (R : BaseRand)
        (vis : List Placed → Bool) (n fuel sk pk ck : ℕ) (objs : List Placed),
        addRandomObjects A d R vis n fuel sk pk ck = some objs →
        ∀ (i j : ℕ) (hi : i < objs.length) (hj : j < objs.length), i ≠ j →
          ∀ v ∈ d.horiz,
            ¬ (0 < ((objs.get ⟨i, hi⟩).x - (objs.get ⟨j, hj⟩).x) * v.1 +
                   ((objs.get ⟨i, hi⟩).y - (objs.get ⟨j, hj⟩).y) * v.2 ∧
               ((objs.get ⟨i, hi⟩).x - (objs.get ⟨j, hj⟩).x) * v.1 +
                   ((objs.get ⟨i, hi⟩).y - (objs.get ⟨j, hj⟩).y) * v.2 < A.margin)) ∧
    (∀ (A : PlaceArgs) (d : Directions) (P : Props) (defaults : List Obj)
        (ρ : ChangeRand) (pix : Obj → ℚ × ℚ × ℚ) (vis : List Obj → Bool)
        (objs : List Obj),
        apply_change A d P .add defaults ρ pix vis = some objs →
        ∀ o ∈ defaults, ∀ v ∈ d.horiz,
          (¬ (0 < ((objs.getLastD dummyObj).coords.1 - o.coords.1) * v.1 +
                  ((objs.getLastD dummyObj).coords.2.1 - o.coords.2.1) * v.2 ∧
              ((objs.getLastD dummyObj).coords.1 - o.coords.1) * v.1 +
                  ((objs.getLastD dummyObj).coords.2.1 - o.coords.2.1) * v.2 < A.margin)) ∧
          (¬ (0 < (o.coords.1 - (objs.getLastD dummyObj).coords.1) * v.1 +
                  (o.coords.2.1 - (objs.getLastD dummyObj).coords.2.1) * v.2 ∧
              (o.coords.1 - (objs.getLastD dummyObj).coords.1) * v.1 +
                  (o.coords.2.1 - (objs.getLastD dummyObj).coords.2.1) * v.2 < A.margin))) := by
  constructor
  · intro A d R vis n fuel sk pk ck objs hrun i j hi hj hij v hv
    have hpw := addRandomObjects_sound A d R vis n fuel sk pk ck objs hrun
    rcases Nat.lt_or_ge i j with hlt | hge
    · exact marginOK_flip A.margin d _ _ _ _ (hpw i j hi hj hlt).2 v hv
    · have hlt : j < i := by omega
      exact (hpw j i hj hi hlt).2 v hv
  · intro A d P defaults ρ pix vis objs h o ho v hv
    obtain ⟨c, haddl, hobjs⟩ := apply_change_add_success h
    have hchk := addLoop_sound A d ρ.poss (P.sizeVal ρ.newSizeName)
      (defaults.map (objPosition P)) A.maxRetries 0 c haddl
    have hm := (hchk (objPosition P o) (List.mem_map_of_mem _ ho)).2
    have hlast : objs.getLastD dummyObj = withPixel pix (addedObj ρ c) := by
      rw [hobjs, List.map_append]
      simp
    rw [hlast]
    exact ⟨hm v hv, marginOK_flip A.margin d _ _ _ _ hm v hv⟩

/-!
Concrete runs used by the witnesses and by the divergence example.
-/

/-- The first object of a scene faces no constraints. -/
theorem check_nil (m mg : ℚ) (d : Directions) (x y r : ℚ) :
    checkDistMargin m mg d x y r [] := by
  intro q hq
  exact absurd hq (List.not_mem_nil q)

/-- The candidate `(3, 0)` with radius `0` passes the checks against an
object of effective radius `0` at the origin, for `min_dist = 0` and
`margin = 2/5`. -/
theorem goodCheck1 :
    checkDistMargin args0.minDist args0.margin dirs0 3 0 0
      [((0 : ℚ), (0 : ℚ), cubeAdjust false 0)] := by
  intro q hq
  rw [List.mem_singleton] at hq
  subst hq
  constructor
  · intro hlt
    have hc : cubeAdjust false 0 = ((0 : ℚ) : ℝ) := rfl
    rw [hc] at hlt
    have h0 : ((args0.minDist : ℚ) : ℝ) = 0 := by norm_num [args0]
    rw [h0] at hlt
    push_cast at hlt
    norm_num at hlt
    exact absurd hlt (not_lt.mpr (Real.sqrt_nonneg 9))
  · have hm : marginOK args0.margin dirs0 3 0 0 0 := by
      intro v hv
      have hh : dirs0.horiz = [((-1 : ℚ), (0 : ℚ)), (1, 0), (0, -1), (0, 1)] := rfl
      rw [hh] at hv
      simp only [List.mem_cons, List.not_mem_nil, or_false] at hv
      rcases hv with rfl | rfl | rfl | rfl <;> norm_num [args0]
    exact hm

/-- The two-object run on `goodRand` succeeds outright and returns the
objects at `(0, 0)` and `(3, 0)`. -/
theorem goodRun :
    addRandomObjects args0 dirs0 goodRand visOkP 2 1 0 0 0 =
      some [⟨0, 0, 0, false⟩, ⟨3, 0, 0, false⟩] := by
  have hl0 : placeLoop args0 dirs0 goodRand (goodRand.sizes 0) []
      args0.maxRetries 0 = (some (goodRand.poss 0), 1) := by
    show placeLoop args0 dirs0 goodRand (goodRand.sizes 0) [] (0 + 1) 0 = _
    rw [placeLoop_succ_pos (check_nil _ _ _ _ _ _)]
  have hc1 : checkDistMargin args0.minDist args0.margin dirs0
      (goodRand.poss 1).1 (goodRand.poss 1).2 (goodRand.sizes 1)
      ([] ++ [((goodRand.poss 0).1, (goodRand.poss 0).2,
        cubeAdjust (goodRand.cubes 0) (goodRand.sizes 0))]) := goodCheck1
  have hl1 : placeLoop args0 dirs0 goodRand (goodRand.sizes 1)
      ([] ++ [((goodRand.poss 0).1, (goodRand.poss 0).2,
        cubeAdjust (goodRand.cubes 0) (goodRand.sizes 0))])
      args0.maxRetries 1 = (some (goodRand.poss 1), 2) := by
    show placeLoop args0 dirs0 goodRand (goodRand.sizes 1) _ (0 + 1) 1 = _
    rw [placeLoop_succ_pos hc1]
  have e1 := @placeObjs_succ_some args0 dirs0 goodRand 1 0 0 0 [] []
    (goodRand.poss 0) 1 hl0
  have e2 := @placeObjs_succ_some args0 dirs0 goodRand 0 1 1 1
    ([] ++ [((goodRand.poss 0).1, (goodRand.poss 0).2,
      cubeAdjust (goodRand.cubes 0) (goodRand.sizes 0))])
    ([] ++ [⟨(goodRand.poss 0).1, (goodRand.poss 0).2, goodRand.sizes 0,
      goodRand.cubes 0⟩]) (goodRand.poss 1) 2 hl1
  have hp2 : placeObjs args0 dirs0 goodRand 2 0 0 0 [] [] =
      (some [⟨0, 0, 0, false⟩, ⟨3, 0, 0, false⟩], 2, 2, 2) := e1.trans e2
  have e3 := @addRandomObjects_succ_some args0 dirs0 goodRand visOkP 2 0 0 0 0
    2 2 2 [⟨0, 0, 0, false⟩, ⟨3, 0, 0, false⟩] hp2
  have hfin : addRandomObjects args0 dirs0 goodRand visOkP 2 1 0 0 0 =
      if visOkP [⟨0, 0, 0, false⟩, ⟨3, 0, 0, false⟩]
      then some [⟨0, 0, 0, false⟩, ⟨3, 0, 0, false⟩]
      else addRandomObjects args0 dirs0 goodRand visOkP 2 0 2 2 2 := e3
  rw [hfin]
  rfl

/-- The `add` candidate `(3, 0)` is accepted against the base scene
`[dummyObj]`. -/
theorem goodAddLoop :
    addLoop args0 dirs0 rand0.poss (props0.sizeVal rand0.newSizeName)
      ([dummyObj].map (objPosition props0)) args0.maxRetries 0 =
      some (rand0.poss 0) := by
  have hcc : checkDistMargin args0.minDist args0.margin dirs0
      (rand0.poss 0).1 (rand0.poss 0).2 (props0.sizeVal rand0.newSizeName)
      ([dummyObj].map (objPosition props0)) := goodCheck1
  show addLoop args0 dirs0 rand0.poss (props0.sizeVal rand0.newSizeName)
    ([dummyObj].map (objPosition props0)) (0 + 1) 0 = _
  simp only [addLoop]
  rw [if_pos hcc]

/-- A successful concrete `add`-type `apply_change`. -/
theorem goodAdd :
    apply_change args0 dirs0 props0 .add [dummyObj] rand0 pix0 visOk =
      some (([dummyObj] ++ [addedObj rand0 (rand0.poss 0)]).map (withPixel pix0)) := by
  rw [apply_change_of_mutate (mutateStep_add_some goodAddLoop)]
  rfl

/-- Witness for claim C1: both invariants evaluated on the concrete
accepted base scene and the concrete accepted `add` variant. -/
theorem min_dist_invariant_witness :
    (((args0.minDist : ℚ) : ℝ) + Placed.effR ⟨0, 0, 0, false⟩ +
        Placed.effR ⟨3, 0, 0, false⟩ ≤ planarDist (0, 0) (3, 0)) ∧
    (((args0.minDist : ℚ) : ℝ) + addEffR props0 rand0 +
        (objPosition props0 dummyObj).2.2 ≤ planarDist (3, 0) (0, 0)) := by
  constructor
  · exact min_dist_invariant.1 args0 dirs0 goodRand visOkP 2 1 0 0 0 _ goodRun
      (by decide) 0 1 (by decide) (by decide) (by decide)
  · exact min_dist_invariant.2 args0 dirs0 props0 [dummyObj] rand0 pix0 visOk _
      goodAdd (by norm_num [props0, rand0]) dummyObj (by simp)

/-- Witness for claim C2: the margin invariant evaluated on the same two
concrete scenes, in the `right = (1, 0)` direction. -/
theorem margin_invariant_witness :
    (¬ (0 < ((0 : ℚ) - 3) * 1 + ((0 : ℚ) - 0) * 0 ∧
        ((0 : ℚ) - 3) * 1 + ((0 : ℚ) - 0) * 0 < args0.margin)) ∧
    (¬ (0 < ((3 : ℚ) - 0) * 1 + ((0 : ℚ) - 0) * 0 ∧
        ((3 : ℚ) - 0) * 1 + ((0 : ℚ) - 0) * 0 < args0.margin)) := by
  constructor
  · exact margin_invariant.1 args0 dirs0 goodRand visOkP 2 1 0 0 0 _ goodRun
      0 1 (by decide) (by decide) (by decide) (1, 0) (by decide)
  · exact (margin_invariant.2 args0 dirs0 props0 [dummyObj] rand0 pix0 visOk _
      goodAdd dummyObj (by simp) (1, 0) (by decide)).1

/-!
## Claim C7: termination of `add_random_objects`
-/

/-- The origin candidate fails the distance check against an object of
effective radius `0` already at the origin when `min_dist = 1/4`. -/
theorem badCheckFail :
    ¬ checkDistMargin badArgs.minDist badArgs.margin dirs0 0 0 0
      [((0 : ℚ), (0 : ℚ), cubeAdjust false 0)] := by
  intro h
  have h1 := (h ((0 : ℚ), (0 : ℚ), cubeAdjust false 0)
    (List.mem_singleton_self _)).1
  unfold distOK at h1
  push_neg at h1
  have hc : cubeAdjust false 0 = ((0 : ℚ) : ℝ) := rfl
  rw [hc] at h1
  have harg : ((0 - 0 : ℚ) : ℝ) * ((0 - 0 : ℚ) : ℝ) +
      ((0 - 0 : ℚ) : ℝ) * ((0 - 0 : ℚ) : ℝ) = 0 := by
    push_cast
    ring
  rw [harg, Real.sqrt_zero] at h1
  have hmd : ((badArgs.minDist : ℚ) : ℝ) = 1 / 4 := by norm_num [badArgs]
  rw [hmd] at h1
  push_cast at h1
  linarith

/-- On `badRand` every scene-level attempt of the two-object placement
fails: the first object lands at the origin and the second can never be
placed. -/
theorem badPlace : ∀ sk pk ck : ℕ,
    (placeObjs badArgs dirs0 badRand 2 sk pk ck [] []).1 = none := by
  intro sk pk ck
  have hl0 : placeLoop badArgs dirs0 badRand (badRand.sizes sk) []
      badArgs.maxRetries pk = (some (badRand.poss pk), pk + 1) := by
    show placeLoop badArgs dirs0 badRand (badRand.sizes sk) [] (0 + 1) pk = _
    rw [placeLoop_succ_pos (check_nil _ _ _ _ _ _)]
  have hl1 : placeLoop badArgs dirs0 badRand (badRand.sizes (sk + 1))
      ([] ++ [((badRand.poss pk).1, (badRand.poss pk).2,
        cubeAdjust (badRand.cubes ck) (badRand.sizes sk))])
      badArgs.maxRetries (pk + 1) = (none, pk + 2) := by
    have hcf : ¬ checkDistMargin badArgs.minDist badArgs.margin dirs0
        (badRand.poss (pk + 1)).1 (badRand.poss (pk + 1)).2
        (badRand.sizes (sk + 1))
        ([] ++ [((badRand.poss pk).1, (badRand.poss pk).2,
          cubeAdjust (badRand.cubes ck) (badRand.sizes sk))]) := badCheckFail
    show placeLoop badArgs dirs0 badRand (badRand.sizes (sk + 1)) _ (0 + 1)
      (pk + 1) = _
    rw [placeLoop_succ_neg hcf]
    rfl
  have e1 := @placeObjs_succ_some badArgs dirs0 badRand 1 sk pk ck [] []
    (badRand.poss pk) (pk + 1) hl0
  have e2 := @placeObjs_succ_none badArgs dirs0 badRand 0 (sk + 1) (pk + 1)
    (ck + 1)
    ([] ++ [((badRand.poss pk).1, (badRand.poss pk).2,
      cubeAdjust (badRand.cubes ck) (badRand.sizes sk))])
    ([] ++ [⟨(badRand.poss pk).1, (badRand.poss pk).2, badRand.sizes sk,
      badRand.cubes ck⟩]) (pk + 2) hl1
  have h12 : placeObjs badArgs dirs0 badRand 2 sk pk ck [] [] =
      (none, sk + 1 + 1, pk + 2, ck + 1) := e1.trans e2
  rw [h12]

/-- When every scene-level attempt fails placement, the recursion of
`add_random_objects` never returns, at any depth. -/
theorem addRandomObjects_stuck (A : PlaceArgs) (d : Directions) (R : BaseRand)
    (vis : List Placed → Bool) (n : ℕ)
    (h : ∀ sk pk ck : ℕ, (placeObjs A d R n sk pk ck [] []).1 = none) :
    divergesOn A d R vis n := by
  intro fuel
  induction fuel with
  | zero => intro sk pk ck; rfl
  | succ f ih =>
      intro sk pk ck
      rcases hpo : placeObjs A d R n sk pk ck [] [] with ⟨o, sk', pk', ck'⟩
      have ho : o = none := by
        have := h sk pk ck
        rw [hpo] at this
        exact this
      subst ho
      rw [addRandomObjects_succ_none hpo]
      exact ih sk' pk' ck'

/-- Claim C7 as stated is false: on the concrete draw streams `badRand`
(every candidate position is the origin) the source recurses forever — the
per-object retry bound only triggers an *unbounded* recursive restart of
the whole scene (lines 688-691), and no `PlacementExhausted` (or any
other failure) result exists in the function.  The fuelled model returns
`none` at every recursion depth, i.e. the real call never returns. -/
theorem add_random_objects_divergence_counterexample :
    divergesOn badArgs dirs0 badRand visOkP 2 :=
  addRandomObjects_stuck badArgs dirs0 badRand visOkP 2 badPlace

/-- Claim C7, amended: each single placement loop is bounded by
`max_retries`, but exhaustion triggers a recursive restart of the entire
scene with no scene-level bound and no `PlacementExhausted` condition;
consequently, on any random stream for which every scene-level attempt
fails, `add_random_objects` never returns (its fuelled model yields `none`
for every recursion depth). -/
theorem add_random_objects_divergence (A : PlaceArgs) (d : Directions)
    (R : BaseRand) (vis : List Placed → Bool) (n : ℕ)
    (h : ∀ sk pk ck : ℕ, (placeObjs A d R n sk pk ck [] []).1 = none) :
    divergesOn A d R vis n :=
  addRandomObjects_stuck A d R vis n h

/-- Witness for the amended claim C7 at the concrete bad streams and
recursion depth 5. -/
theorem add_random_objects_divergence_witness :
    addRandomObjects badArgs dirs0 badRand visOkP 2 5 0 0 0 = none :=
  add_random_objects_divergence badArgs dirs0 badRand visOkP 2 badPlace 5 0 0 0

/-!
## Claim C10: `apply_change` never mutates the base records
-/

/-- Allocation leaves every already-allocated cell unchanged. -/
theorem alloc_mem_lt {h : Heap} {o : Obj} {a : ℕ} (ha : a < h.nxt) :
    (h.alloc o).1.mem a = h.mem a := by
  show (if a = h.nxt then o else h.mem a) = h.mem a
  rw [if_neg (by omega)]

/-- Writing one cell leaves the others unchanged. -/
theorem write_mem_ne {h : Heap} {b : ℕ} {o : Obj} {a : ℕ} (hab : a ≠ b) :
    (h.write b o).mem a = h.mem a := by
  show (if a = b then o else h.mem a) = h.mem a
  rw [if_neg hab]

/-- The copy loop of the `same`/`add` branches: the allocation frontier only
grows, the already-allocated cells keep their records, and every returned
address is fresh. -/
theorem copyList_spec (l : List ℕ) : ∀ h : Heap,
    h.nxt ≤ (copyList h l).1.nxt ∧
    (∀ a, a < h.nxt → (copyList h l).1.mem a = h.mem a) ∧
    (∀ b ∈ (copyList h l).2, h.nxt ≤ b ∧ b < (copyList h l).1.nxt) := by
  induction l with
  | nil =>
      intro h
      exact ⟨le_rfl, fun a _ => rfl, fun b hb => absurd hb (List.not_mem_nil b)⟩
  | cons a as ih =>
      intro h
      simp only [copyList]
      obtain ⟨ih1, ih2, ih3⟩ := ih (h.alloc (h.mem a)).1
      have hn : (h.alloc (h.mem a)).1.nxt = h.nxt + 1 := rfl
      have hp2 : (h.alloc (h.mem a)).2 = h.nxt := rfl
      rw [hn] at ih1
      refine ⟨by omega, ?_, ?_⟩
      · intro x hx
        rw [ih2 x (by rw [hn]; omega)]
        exact alloc_mem_lt hx
      · intro b hb
        simp only [List.mem_cons] at hb
        rcases hb with rfl | hb
        · exact ⟨by omega, by omega⟩
        · have hb' := ih3 b hb
          rw [hn] at hb'
          exact ⟨by omega, hb'.2⟩

/-- The copy loops of the `color`/`material` branches: same frontier and
freshness facts; the single field update happens on a fresh copy and never
touches an old cell. -/
theorem copyUpd_spec (upd : Obj → Obj) (idx : ℕ) (l : List ℕ) :
    ∀ (h : Heap) (i : ℕ),
    h.nxt ≤ (copyUpd upd idx h l i).1.nxt ∧
    (∀ a, a < h.nxt → (copyUpd upd idx h l i).1.mem a = h.mem a) ∧
    (∀ b ∈ (copyUpd upd idx h l i).2,
      h.nxt ≤ b ∧ b < (copyUpd upd idx h l i).1.nxt) := by
  induction l with
  | nil =>
      intro h i
      exact ⟨le_rfl, fun a _ => rfl, fun b hb => absurd hb (List.not_mem_nil b)⟩
  | cons a as ih =>
      intro h i
      simp only [copyUpd]
      set p := h.alloc (h.mem a) with hp
      set h2 := if i = idx then p.1.write p.2 (upd (p.1.mem p.2)) else p.1 with hh2
      have hn2 : h2.nxt = h.nxt + 1 := by
        rw [hh2]
        by_cases hi : i = idx
        · rw [if_pos hi]; rfl
        · rw [if_neg hi]; rfl
      have hm2 : ∀ x, x < h.nxt → h2.mem x = h.mem x := by
        intro x hx
        rw [hh2]
        by_cases hi : i = idx
        · rw [if_pos hi]
          have hp2 : p.2 = h.nxt := rfl
          rw [write_mem_ne (by omega)]
          exact alloc_mem_lt hx
        · rw [if_neg hi]
          exact alloc_mem_lt hx
      obtain ⟨ih1, ih2, ih3⟩ := ih h2 (i + 1)
      have hpfst : p.2 = h.nxt := by
        rw [hp]
        rfl
      rw [hn2] at ih1
      refine ⟨by omega, ?_, ?_⟩
      · intro x hx
        rw [ih2 x (by rw [hn2]; omega)]
        exact hm2 x hx
      · intro b hb
        simp only [List.mem_cons] at hb
        rcases hb with rfl | hb
        · exact ⟨by omega, by omega⟩
        · have hb' := ih3 b hb
          rw [hn2] at hb'
          exact ⟨by omega, hb'.2⟩

/-- The copy loop of the `drop` branch: same facts. -/
theorem copyDrop_spec (idx : ℕ) (l : List ℕ) : ∀ (h : Heap) (i : ℕ),
    h.nxt ≤ (copyDrop idx h l i).1.nxt ∧
    (∀ a, a < h.nxt → (copyDrop idx h l i).1.mem a = h.mem a) ∧
    (∀ b ∈ (copyDrop idx h l i).2,
      h.nxt ≤ b ∧ b < (copyDrop idx h l i).1.nxt) := by
  induction l with
  | nil =>
      intro h i
      exact ⟨le_rfl, fun a _ => rfl, fun b hb => absurd hb (List.not_mem_nil b)⟩
  | cons a as ih =>
      intro h i
      simp only [copyDrop]
      by_cases hi : i = idx
      · rw [if_pos hi]
        exact ih h (i + 1)
      · rw [if_neg hi]
        simp only
        obtain ⟨ih1, ih2, ih3⟩ := ih (h.alloc (h.mem a)).1 (i + 1)
        have hn : (h.alloc (h.mem a)).1.nxt = h.nxt + 1 := rfl
        have hp2 : (h.alloc (h.mem a)).2 = h.nxt := rfl
        rw [hn] at ih1
        refine ⟨by omega, ?_, ?_⟩
        · intro x hx
          rw [ih2 x (by rw [hn]; omega)]
          exact alloc_mem_lt hx
        · intro b hb
          simp only [List.mem_cons] at hb
          rcases hb with rfl | hb
          · exact ⟨by omega, by omega⟩
          · have hb' := ih3 b hb
            rw [hn] at hb'
            exact ⟨by omega, hb'.2⟩

/-- The pixel-coordinate write loop only writes to the given addresses. -/
theorem setPixels_spec (pix : Obj → ℚ × ℚ × ℚ) (addrs : List ℕ) :
    ∀ (h : Heap) (n : ℕ), (∀ b ∈ addrs, n ≤ b) →
    (setPixels pix h addrs).nxt = h.nxt ∧
    (∀ a, a < n → (setPixels pix h addrs).mem a = h.mem a) := by
  induction addrs with
  | nil => intro h n _; exact ⟨rfl, fun a _ => rfl⟩
  | cons b bs ih =>
      intro h n hfresh
      simp only [setPixels]
      obtain ⟨ih1, ih2⟩ := ih (h.write b { h.mem b with pixel := some (pix (h.mem b)) }) n
        (fun x hx => hfresh x (List.mem_cons_of_mem b hx))
      have hw : (h.write b { h.mem b with pixel := some (pix (h.mem b)) }).nxt = h.nxt := rfl
      refine ⟨by rw [ih1, hw], ?_⟩
      · intro a ha
        rw [ih2 a ha]
        have hb := hfresh b (List.mem_cons_self b bs)
        exact write_mem_ne (by omega)

/-- The branch dispatch of `apply_change` on the heap: the allocation
frontier grows, the base cells are untouched, and all returned `new_objects`
addresses are fresh. -/
theorem mutateStepHeap_spec (A : PlaceArgs) (d : Directions) (P : Props)
    (ct : ChangeType) (h : Heap) (defaults : List ℕ) (ρ : ChangeRand) :
    h.nxt ≤ (mutateStepHeap A d P ct h defaults ρ).1.nxt ∧
    (∀ a, a < h.nxt → (mutateStepHeap A d P ct h defaults ρ).1.mem a = h.mem a) ∧
    (∀ addrs, (mutateStepHeap A d P ct h defaults ρ).2 = some addrs →
      ∀ b ∈ addrs, h.nxt ≤ b ∧ b < (mutateStepHeap A d P ct h defaults ρ).1.nxt) := by
  cases ct with
  | color =>
      obtain ⟨h1, h2, h3⟩ :=
        copyUpd_spec (fun o => { o with color := ρ.newColor }) ρ.objectIdx defaults h 0
      exact ⟨h1, h2, fun addrs ha b hb => h3 b (by
        injection ha with ha
        exact ha ▸ hb)⟩
  | material =>
      obtain ⟨h1, h2, h3⟩ :=
        copyUpd_spec (fun o => { o with material := ρ.newMaterial }) ρ.objectIdx defaults h 0
      exact ⟨h1, h2, fun addrs ha b hb => h3 b (by
        injection ha with ha
        exact ha ▸ hb)⟩
  | drop =>
      obtain ⟨h1, h2, h3⟩ := copyDrop_spec ρ.objectIdx defaults h 0
      exact ⟨h1, h2, fun addrs ha b hb => h3 b (by
        injection ha with ha
        exact ha ▸ hb)⟩
  | same =>
      obtain ⟨h1, h2, h3⟩ := copyList_spec defaults h
      exact ⟨h1, h2, fun addrs ha b hb => h3 b (by
        injection ha with ha
        exact ha ▸ hb)⟩
  | shape =>
      exact ⟨le_rfl, fun a _ => rfl, fun addrs ha b hb => by
        injection ha with ha
        subst ha
        exact absurd hb (List.not_mem_nil b)⟩
  | switch =>
      exact ⟨le_rfl, fun a _ => rfl, fun addrs ha b hb => by
        injection ha with ha
        subst ha
        exact absurd hb (List.not_mem_nil b)⟩
  | random =>
      exact ⟨le_rfl, fun a _ => rfl, fun addrs ha b hb => by
        injection ha with ha
        subst ha
        exact absurd hb (List.not_mem_nil b)⟩
  | add =>
      obtain ⟨h1, h2, h3⟩ := copyList_spec defaults h
      rcases haddl : addLoop A d ρ.poss (P.sizeVal ρ.newSizeName)
          (defaults.map fun a => objPosition P (h.mem a)) A.maxRetries 0 with _ | c
      · simp only [mutateStepHeap, haddl]
        exact ⟨h1, h2, fun addrs ha => by
          exact absurd ha (by simp)⟩
      · simp only [mutateStepHeap, haddl]
        have hn : ((copyList h defaults).1.alloc (addedObj ρ c)).1.nxt =
            (copyList h defaults).1.nxt + 1 := rfl
        refine ⟨by rw [hn]; omega, ?_, ?_⟩
        · intro a ha
          rw [alloc_mem_lt (by omega)]
          exact h2 a ha
        · intro addrs ha b hb
          injection ha with ha
          subst ha
          rw [List.mem_append] at hb
          rcases hb with hb | hb
          · have hb' := h3 b hb
            rw [hn]
            exact ⟨hb'.1, by omega⟩
          · rw [List.mem_singleton] at hb
            subst hb
            have hb2 : ((copyList h defaults).1.alloc (addedObj ρ c)).2 =
                (copyList h defaults).1.nxt := rfl
            rw [hb2, hn]
            exact ⟨by omega, by omega⟩

/-- Claim C10: `apply_change` never mutates the base object records.  On
the heap model (addresses for dictionaries, `copy.deepcopy` as fresh
allocation), for every change type and whether the call succeeds or fails,
every address of `default_objects` holds exactly the record it held before
the call: field updates and the `pixel_coords` re-render writes only ever
hit freshly allocated copies. -/
theorem apply_change_no_base_mutation (A : PlaceArgs) (d : Directions)
    (P : Props) (ct : ChangeType) (h : Heap) (defaults : List ℕ)
    (ρ : ChangeRand) (pix : Obj → ℚ × ℚ × ℚ) (vis : List Obj → Bool)
    (hvalid : ∀ a ∈ defaults, a < h.nxt) :
    ∀ a ∈ defaults,
      (applyChangeHeap A d P ct h defaults ρ pix vis).1.mem a = h.mem a := by
  intro a ha
  obtain ⟨h1, h2, h3⟩ := mutateStepHeap_spec A d P ct h defaults ρ
  rcases hms : mutateStepHeap A d P ct h defaults ρ with ⟨h', oaddrs⟩
  rw [hms] at h1 h2 h3
  simp only at h1 h2 h3
  cases oaddrs with
  | none =>
      simp only [applyChangeHeap, hms]
      exact h2 a (hvalid a ha)
  | some addrs =>
      simp only [applyChangeHeap, hms]
      obtain ⟨hsp1, hsp2⟩ := setPixels_spec pix addrs h' h.nxt
        (fun b hb => (h3 addrs rfl b hb).1)
      have hfin : (setPixels pix h' addrs).mem a = h.mem a := by
        rw [hsp2 a (hvalid a ha)]
        exact h2 a (hvalid a ha)
      by_cases hv : vis (addrs.map (setPixels pix h' addrs).mem)
      · rw [if_pos hv]
        exact hfin
      · rw [if_neg hv]
        exact hfin

/-- Witness for claim C10 on a concrete one-cell heap and the `same`
change type. -/
theorem apply_change_no_base_mutation_witness :
    (applyChangeHeap args0 dirs0 props0 .same ⟨fun _ => dummyObj, 1⟩ [0]
      rand0 pix0 visOk).1.mem 0 = dummyObj := by
  have h := apply_change_no_base_mutation args0 dirs0 props0 .same
    ⟨fun _ => dummyObj, 1⟩ [0] rand0 pix0 visOk
    (by
      intro a ha
      rw [List.mem_singleton] at ha
      subst ha
      show (0 : ℕ) < 1
      norm_num) 0 (by simp)
  exact h

end RenderSC
